import Mathlib

/-!
Verification of the adelson-localization translation engine.

This file shallowly embeds the engine of the repository:
  * `src/stringHelpers.ts`   — `String.prototype.format` (placeholder formatter)
  * `src/objectHelpers.ts`   — `deepMerge` (permissive merge) and
                               `strictDeepMerge` (strict, schema-preserving merge)
  * `useLanguage` hook       — the pure parts: `PLURAL_RULES`, `ln`, `lnPlural`

JavaScript values are modelled by `JSValue` (trees over assoc lists);
machine-level aspects that matter to the code are modelled explicitly:
`typeof`, truthiness, `hasOwnProperty` (including the own index/`length`
properties of strings and arrays, string indices counted in UTF-16 units),
property access — including the PROTOTYPE-CHAIN hits of the bare reads
`namedArgs[key]` and `PLURAL_RULES[language]`, which find the inherited
`Object.prototype` members for names like `toString` — string coercion
(`String(v)`, with arrays joining by commas, plain objects rendering as
`[object Object]` and native functions as
`function name() \x7b [native code] \x7d`), and the TypeError thrown by
every `x.hasOwnProperty(k)` call when `x` is an object whose own
`"hasOwnProperty"` key (a legal JSON key) shadows the inherited method with
a non-callable value; the mergers and `ln` therefore return
`Except String JSValue`.  A real JS object never has two own properties
with the same key; the predicate `wfJS` captures that invariant of the
assoc-list representation, and `safeKeys` — no `"hasOwnProperty"` or
`"__proto__"` own keys anywhere — delimits the documents over which the
merge identities are claimed (an own `"__proto__"` key would mutate the
result's prototype, which is outside this embedding).
-/

/-- Model of a JavaScript value as it flows through the engine: `undef`
models `undefined`, objects are insertion-ordered association lists. -/
inductive JSValue where
  | undef : JSValue
  | null : JSValue
  | bool : Bool → JSValue
  | num : Int → JSValue
  | str : String → JSValue
  | arr : List JSValue → JSValue
  | obj : List (String × JSValue) → JSValue
deriving Repr

namespace JSValue

mutual

/-- Structural equality test on `JSValue` (the derive handler does not
support this nested inductive). -/
def beqVal : JSValue → JSValue → Bool
  | .undef, .undef => true
  | .null, .null => true
  | .bool a, .bool b => a == b
  | .num a, .num b => a == b
  | .str a, .str b => a == b
  | .arr a, .arr b => beqElems a b
  | .obj a, .obj b => beqFields a b
  | _, _ => false

/-- Pointwise `beqVal` on element lists. -/
def beqElems : List JSValue → List JSValue → Bool
  | [], [] => true
  | a :: as_, b :: bs => beqVal a b && beqElems as_ bs
  | _, _ => false

/-- Pointwise `beqVal` on field lists. -/
def beqFields : List (String × JSValue) → List (String × JSValue) → Bool
  | [], [] => true
  | (k, v) :: as_, (k', v') :: bs => k == k' && beqVal v v' && beqFields as_ bs
  | _, _ => false

end

mutual

theorem beqVal_iff : ∀ a b : JSValue, beqVal a b = true ↔ a = b
  | .undef, b => by cases b <;> simp [beqVal]
  | .null, b => by cases b <;> simp [beqVal]
  | .bool a, b => by cases b <;> simp [beqVal]
  | .num a, b => by cases b <;> simp [beqVal]
  | .str a, b => by cases b <;> simp [beqVal]
  | .arr a, b => by
    cases b <;> simp [beqVal]
    exact beqElems_iff a _
  | .obj a, b => by
    cases b <;> simp [beqVal]
    exact beqFields_iff a _

theorem beqElems_iff : ∀ a b : List JSValue, beqElems a b = true ↔ a = b
  | [], b => by cases b <;> simp [beqElems]
  | x :: xs, [] => by simp [beqElems]
  | x :: xs, y :: ys => by
    simp [beqElems, beqVal_iff x y, beqElems_iff xs ys]

theorem beqFields_iff : ∀ a b : List (String × JSValue), beqFields a b = true ↔ a = b
  | [], b => by cases b <;> simp [beqFields]
  | x :: xs, [] => by simp [beqFields]
  | (k, v) :: xs, (k', v') :: ys => by
    simp [beqFields, beqVal_iff v v', beqFields_iff xs ys, and_assoc]

end

instance : DecidableEq JSValue := fun a b =>
  decidable_of_iff _ (beqVal_iff a b)

instance : DecidableEq (Except String JSValue) := fun a b =>
  match a, b with
  | .ok x, .ok y => decidable_of_iff (x = y) (by simp)
  | .error x, .error y => decidable_of_iff (x = y) (by simp)
  | .ok _, .error _ => isFalse (by simp)
  | .error _, .ok _ => isFalse (by simp)

/-- JavaScript truthiness: `undefined`, `null`, `false`, `0`, `""` are falsy. -/
def jsTruthy : JSValue → Bool
  | .undef => false
  | .null => false
  | .bool b => b
  | .num n => n != 0
  | .str s => s != ""
  | .arr _ => true
  | .obj _ => true

/-- `typeof v === "object"` — true for `null`, arrays and plain objects. -/
def typeofObject : JSValue → Bool
  | .null => true
  | .arr _ => true
  | .obj _ => true
  | _ => false

/-- `v !== null && v !== undefined` — the test applied by optional chaining. -/
def notNullish : JSValue → Bool
  | .null => false
  | .undef => false
  | _ => true

/-- The condition `typeof v === 'object' && v !== null && !Array.isArray(v)`
used by both mergers to recognise a plain document. -/
def isNonArrayObj : JSValue → Bool
  | .obj _ => true
  | _ => false

end JSValue

/-- Decimal digit character, `48 + d` is the ASCII code of the digit. -/
def digitChar10 (d : Nat) : Char := Char.ofNat (48 + d)

/-- Decimal digits of a natural number, most significant first; the fuel
argument (any bound above the number) makes the recursion structural. -/
def idxDigitsF : Nat → Nat → List Char
  | 0, _ => []
  | fuel + 1, n =>
    if n < 10 then [digitChar10 n]
    else idxDigitsF fuel (n / 10) ++ [digitChar10 (n % 10)]

/-- The string JavaScript uses as the own-property key of array/string index
`n` (its decimal representation). -/
def idxStr (n : Nat) : String := String.mk (idxDigitsF (n + 1) n)

/-- The UTF-16 code units of a string, one entry per unit: JavaScript strings
are unit sequences, so `.length` counts an astral character twice and `s[i]`
addresses units.  A unit inside an astral character is half of a surrogate
pair, which no Lean `Char` can hold; both halves are represented here by the
astral character itself — exact in count for every string and exact in value
for strings of basic-plane characters (any practical translation text). -/
def utf16Units : List Char → List Char
  | [] => []
  | c :: cs => if c.val ≥ 0x10000 then c :: c :: utf16Units cs else c :: utf16Units cs

namespace JSValue

/-- First binding of `k` in an association list, i.e. the own property `k`. -/
def lookupField : List (String × JSValue) → String → Option JSValue
  | [], _ => none
  | (k', v) :: rest, k => if k' = k then some v else lookupField rest k

/-- Index (if any) named by the key `k` into a sequence of length `len`:
JavaScript array/string index keys are canonical decimal numerals. -/
def idxOf (k : String) (len : Nat) : Option Nat :=
  (List.range len).find? (fun i => idxStr i == k)

/-- `v.hasOwnProperty(k)`: own keys of plain objects; for arrays and strings
the (dense) index keys and `"length"` (string indices counted in UTF-16
units, as JavaScript does); primitives own nothing. -/
def jsHasOwn : JSValue → String → Bool
  | .obj fields, k => (lookupField fields k).isSome
  | .arr elems, k => k == "length" || (idxOf k elems.length).isSome
  | .str s, k => k == "length" || (idxOf k (utf16Units s.data).length).isSome
  | _, _ => false

/-- `v[k]` for the own data properties modelled by `jsHasOwn`
(`undefined` when absent). -/
def jsGetProp : JSValue → String → JSValue
  | .obj fields, k => (lookupField fields k).getD .undef
  | .arr elems, k =>
    if k == "length" then .num elems.length
    else ((idxOf k elems.length).bind (fun i => elems.get? i)).getD .undef
  | .str s, k =>
    if k == "length" then .num (utf16Units s.data).length
    else (((idxOf k (utf16Units s.data).length).bind
      (fun i => (utf16Units s.data).get? i)).map
      (fun c => JSValue.str (String.mk [c]))).getD .undef
  | _, _ => undef

/-- `o[k] = v` on an object: replaces the binding in place if the key exists,
else appends it (JavaScript insertion order).  On non-objects it is the
identity; the engine only ever assigns into objects. -/
def setProp : JSValue → String → JSValue → JSValue
  | .obj fields, k, v => .obj (setField fields k v)
  | o, _, _ => o
where
  /-- Replace the first binding of `k`, or append one. -/
  setField : List (String × JSValue) → String → JSValue → List (String × JSValue)
  | [], k, v => [(k, v)]
  | (k', v') :: rest, k, v =>
    if k' = k then (k, v) :: rest else (k', v') :: setField rest k v

/-- `x || emptyObject`, as in `result[key] || {}`. -/
def jsOrEmptyObj (v : JSValue) : JSValue := if v.jsTruthy then v else .obj []

mutual

/-- `String(v)`: JavaScript string coercion of the values in our model.
Arrays stringify by joining their elements with `","` (with `null` and
`undefined` elements rendering empty), plain objects as
`[object Object]`. -/
def jsToString : JSValue → String
  | .undef => "undefined"
  | .null => "null"
  | .bool b => if b then "true" else "false"
  | .num n => toString n
  | .str s => s
  | .arr elems => arrJoin elems
  | .obj _ => "[object Object]"

/-- `Array.prototype.toString`: comma-joined element coercions, with `null`
and `undefined` elements rendering empty. -/
def arrJoin : List JSValue → String
  | [] => ""
  | [.null] => ""
  | [.undef] => ""
  | [v] => jsToString v
  | .null :: rest => "," ++ arrJoin rest
  | .undef :: rest => "," ++ arrJoin rest
  | v :: rest => jsToString v ++ "," ++ arrJoin rest

end

end JSValue

open JSValue

/-- The constructor function a value inherits as its `constructor` property
(`Object.prototype.constructor` and the overriding entries of the
wrapper prototypes). -/
def ctorName : JSValue → String
  | .arr _ => "Array"
  | .str _ => "String"
  | .num _ => "Number"
  | .bool _ => "Boolean"
  | _ => "Object"

/-- `String(f)` for a native built-in function named `n`:
`function n() \x7b [native code] \x7d`. -/
def nativeFnStr (n : String) : String :=
  "function " ++ n ++ "() \x7b [native code] \x7d"

/-- The `Object.prototype` method names reachable by an alphanumeric property
name (the token pattern admits only `[a-zA-Z0-9]`, so the underscore-named
members are out of reach); every one is a function with the same name on each
prototype chain the formatter can meet. -/
def objProtoFnNames : List String :=
  ["hasOwnProperty", "isPrototypeOf", "propertyIsEnumerable",
   "toLocaleString", "toString", "valueOf"]

/-- Replacement text the formatter produces for a named token
(`typeof namedArgs[key] !== 'undefined' ? namedArgs[key] : match`,
src/stringHelpers.ts line 93), `none` meaning the token text itself stays.
The bare read `namedArgs[key]` finds an own data property first (object
fields, and the index/`length` own properties of arrays and strings); when
the own property is absent the read continues along the PROTOTYPE CHAIN, so
an alphanumeric `Object.prototype` method name (or `constructor`) yields the
inherited native function, which `String(...)` renders as
`function name() \x7b [native code] \x7d`.  Type-specific prototype methods
beyond these shared names (for example `Array.prototype.push`, present only
when the bag is not a mapping) are engine-version-dependent and outside the
modelled domain; for a plain-object bag the model is exact. -/
def namedSub (named : JSValue) (name : String) : Option String :=
  if named.jsGetProp name ≠ .undef then some (jsToString (named.jsGetProp name))
  else if named.jsTruthy ∧ ¬ named.jsHasOwn name ∧ name ∈ objProtoFnNames then
    some (nativeFnStr name)
  else if named.jsTruthy ∧ ¬ named.jsHasOwn name ∧ name = "constructor" then
    some (nativeFnStr (ctorName named))
  else none

/-- The character code 123, an opening curly brace. -/
def lbraceChar : Char := Char.ofNat 123

/-- The character code 125, a closing curly brace. -/
def rbraceChar : Char := Char.ofNat 125

/-- The literal text of a placeholder token with the given name: two opening
braces, the name, two closing braces. -/
def tokenStr (name : String) : String :=
  String.mk (lbraceChar :: lbraceChar :: (name.data ++ [rbraceChar, rbraceChar]))

/-- A character the token pattern accepts in a name: `[a-zA-Z0-9]`. -/
def isTokenNameChar (c : Char) : Bool := c.isAlphanum

/-- Parse the inside of a candidate token: given the text following two
opening braces, take the maximal `[a-zA-Z0-9]` run as the name and require
two closing braces right after it; return the name and the remaining text. -/
def parseToken (cs : List Char) : Option (List Char × List Char) :=
  if ((cs.dropWhile isTokenNameChar).take 2) = [rbraceChar, rbraceChar] then
    some (cs.takeWhile isTokenNameChar, (cs.dropWhile isTokenNameChar).drop 2)
  else none

theorem parseToken_length_lt {cs nm rest : List Char}
    (h : parseToken cs = some (nm, rest)) : rest.length < cs.length := by
  have hsub : (cs.dropWhile isTokenNameChar).length ≤ cs.length :=
    (List.dropWhile_sublist _).length_le
  unfold parseToken at h
  split at h
  · simp only [Option.some.injEq, Prod.mk.injEq] at h
    obtain ⟨-, hr⟩ := h
    subst hr
    rename_i htake
    have h2 : (List.take 2 (cs.dropWhile isTokenNameChar)).length = 2 := by
      rw [htake]; rfl
    simp only [List.length_take] at h2
    simp only [List.length_drop]
    omega
  · simp at h

/-- Scanner of `String.prototype.format` (src/stringHelpers.ts, lines 87–95):
`String(this).replace(` token pattern `, (match, key) => ...)` walks the
template left to right.  At each position, a token is two opening braces, a
maximal run of `[a-zA-Z0-9]` characters, and two closing braces; otherwise the
character is copied and scanning resumes one position later.  An empty-name
token shifts the next positional argument off `args` unless
`typeof args[0] === 'undefined'` (then the token text stays and nothing is
consumed); a named token substitutes per `namedSub` (own property, else the
prototype chain, else the token text).  Substituted values are coerced with
`String(...)`. -/
def formatAux : Nat → List Char → List JSValue → JSValue → String
  | 0, cs, _, _ => String.mk cs
  | _ + 1, [], _, _ => ""
  | _ + 1, [c], _, _ => String.mk [c]
  | fuel + 1, c :: c2 :: cs2, args, named =>
    if c = lbraceChar ∧ c2 = lbraceChar then
      match parseToken cs2 with
      | some (name, rest2) =>
        if name.isEmpty then
          match args with
          | [] => tokenStr "" ++ formatAux fuel rest2 [] named
          | a :: args2 =>
            if a = .undef then tokenStr "" ++ formatAux fuel rest2 (a :: args2) named
            else jsToString a ++ formatAux fuel rest2 args2 named
        else
          match namedSub named (String.mk name) with
          | some txt => txt ++ formatAux fuel rest2 args named
          | none => tokenStr (String.mk name) ++ formatAux fuel rest2 args named
      | none => String.mk [c] ++ formatAux fuel (c2 :: cs2) args named
    else String.mk [c] ++ formatAux fuel (c2 :: cs2) args named

/-- `template.format(...args)` (src/stringHelpers.ts, lines 87–95):
`const namedArgs = args[args.length - 1] || {};` then the scan above. -/
def jsFormat (template : String) (args : List JSValue) : String :=
  formatAux template.data.length template.data args
    (jsOrEmptyObj ((args.getLast?).getD .undef))

/-- A rule of the `PLURAL_RULES` table: one language compares `count <= 1`,
all others compare `count === 1`. -/
inductive PluralRule where
  | le1 : PluralRule
  | eq1 : PluralRule
deriving Repr, DecidableEq

/-- Apply a plural rule to a count, yielding the form tag. -/
def applyPluralRule : PluralRule → Int → String
  | .le1, count => if count ≤ 1 then "singular" else "plural"
  | .eq1, count => if count = 1 then "singular" else "plural"

/-- The static `PLURAL_RULES` table of useLanguage (lines 9–19): `fr` uses the
`count <= 1` rule, the other listed languages and the `default` entry use the
`count === 1` rule. -/
def PLURAL_RULES : List (String × PluralRule) :=
  [("fr", .le1), ("es", .eq1), ("en", .eq1), ("de", .eq1), ("it", .eq1),
   ("pt", .eq1), ("nl", .eq1), ("default", .eq1)]

/-- The table-or-default rule selection described by the specification: the
language's own entry when listed, else the `default` entry. -/
def selectForm (lang : String) (count : Int) : String :=
  applyPluralRule ((PLURAL_RULES.lookup lang).getD
    ((PLURAL_RULES.lookup "default").getD .eq1)) count

/-- Members of `Object.prototype` (alphanumeric and underscore-named): a
language identifier equal to one of these is found on the prototype chain by
the bare read `PLURAL_RULES[language.key]` before the `||` fallback can pick
the default rule. -/
def objProtoKeys : List String :=
  ["hasOwnProperty", "isPrototypeOf", "propertyIsEnumerable", "toLocaleString",
   "toString", "valueOf", "constructor", "__proto__", "__defineGetter__",
   "__defineSetter__", "__lookupGetter__", "__lookupSetter__"]

/-- `(PLURAL_RULES[language.key] || PLURAL_RULES.default)(count)` rendered
into the key suffix (lnPlural, lines 239–241).  An own entry of the table
applies its rule.  Otherwise the bare read consults `Object.prototype`
(the table is a plain object literal), and the inherited member — truthy, so
the `||` never falls through to the default rule — is CALLED with a strict
mode `this` of `undefined`: `toString` yields `"[object Undefined]"`;
`constructor` is the `Object` function, whose call boxes the count, which the
template literal renders back as the decimal count; `isPrototypeOf` returns
`false` (its first step inspects the argument, a number); `valueOf`,
`hasOwnProperty`, `propertyIsEnumerable`, `toLocaleString` and the four
underscore-named accessor helpers raise a TypeError coercing `undefined` to
an object; `__proto__` reads as `Object.prototype`, which is not callable.
Only identifiers absent from both the table and the prototype select the
default rule. -/
def selectFormE (lang : String) (count : Int) : Except String String :=
  match PLURAL_RULES.lookup lang with
  | some r => .ok (applyPluralRule r count)
  | none =>
    if lang = "toString" then .ok "[object Undefined]"
    else if lang = "constructor" then .ok (toString count)
    else if lang = "isPrototypeOf" then .ok "false"
    else if lang ∈ ["hasOwnProperty", "propertyIsEnumerable", "toLocaleString",
        "valueOf", "__defineGetter__", "__defineSetter__", "__lookupGetter__",
        "__lookupSetter__"] then
      .error "TypeError: undefined is not an object"
    else if lang = "__proto__" then .error "TypeError: rule is not a function"
    else .ok (applyPluralRule ((PLURAL_RULES.lookup "default").getD .eq1) count)

/-- Outcome of the `defaultTxt` guard at the top of `ln` (lines 206–209):
`args.length > 0 && typeof args[args.length - 1] === "object" &&
args[args.length - 1].hasOwnProperty("defaultTxt")`.  The `hasOwnProperty`
CALL itself can raise a `TypeError`: when the last argument is `null`
(`typeof null` is `"object"`, and property access on `null` throws), and
when the last argument is an object whose OWN `"hasOwnProperty"` key — a
perfectly legal JSON key — shadows the inherited method with a non-callable
value. -/
inductive OverrideCheck where
  | thrown : String → OverrideCheck
  | present : JSValue → OverrideCheck
  | absent : OverrideCheck
deriving Repr, DecidableEq

/-- Evaluate the `defaultTxt` guard of `ln` on the trailing arguments. -/
def checkOverride (args : List JSValue) : OverrideCheck :=
  match args.getLast? with
  | none => .absent
  | some last =>
    if last.typeofObject then
      if last = .null then .thrown "TypeError: null.hasOwnProperty"
      else if last.jsHasOwn "hasOwnProperty" then
        .thrown "TypeError: args.hasOwnProperty is not a function"
      else if last.jsHasOwn "defaultTxt" then .present (last.jsGetProp "defaultTxt")
      else .absent
    else .absent

/-- Character-level worker of JavaScript `key.split(".")`: splitting an empty
text yields one empty group, a dot starts a new group, any other character is
prepended to the first group. -/
def splitChars : List Char → List (List Char)
  | [] => [[]]
  | c :: cs =>
    if c = '.' then [] :: splitChars cs
    else
      match splitChars cs with
      | g :: gs => (c :: g) :: gs
      | [] => [[c]]

/-- `key.split(".")` (ln, line 203). -/
def jsSplitDot (s : String) : List String := (splitChars s.data).map String.mk

/-- A character trimmed by `trimStart`/`trimEnd`: the WhiteSpace production
(TAB, VT, FF, SP, NBSP, ZWNBSP and the Unicode space separators) together
with the line terminators (LF, CR, LS, PS). -/
def isJsSpace (c : Char) : Bool :=
  c.val == 9 || c.val == 10 || c.val == 11 || c.val == 12 || c.val == 13 ||
  c.val == 32 || c.val == 0xA0 || c.val == 0x1680 ||
  (0x2000 ≤ c.val && c.val ≤ 0x200A) ||
  c.val == 0x2028 || c.val == 0x2029 || c.val == 0x202F || c.val == 0x205F ||
  c.val == 0x3000 || c.val == 0xFEFF

/-- `s.trimStart().trimEnd()` (ln, line 213): strip leading and trailing
whitespace. -/
def jsTrim (s : String) : String :=
  String.mk (((s.data.dropWhile isJsSpace).reverse.dropWhile isJsSpace).reverse)

/-- The `try { while ... } catch` descent of `ln` (lines 218–228): for each
remaining segment, `if (!value?.hasOwnProperty(keyPart)) throw ...;
value = value?.[keyPart]`.  `none` models the caught throw, which occurs
when the current value is nullish (the optional call yields `undefined` and
the `!` branch throws the string), when the value is an object whose own
`"hasOwnProperty"` key shadows the method with a non-callable JSON value
(the guard call itself raises a TypeError, which the same `try` catches),
and when the own-property test fails. -/
def descendSegs : JSValue → List String → Option JSValue
  | v, [] => some v
  | v, s :: rest =>
    if v.notNullish ∧ ¬ v.jsHasOwn "hasOwnProperty" ∧ v.jsHasOwn s then
      descendSegs (v.jsGetProp s) rest
    else none

/-- The not-found fallback of `ln` (lines 215 and 227):
``defaultTxt ? `${defaultTxt}`.format(...args) : key``. -/
def notFoundFallback (defaultTxt : JSValue) (key : String) (args : List JSValue) : JSValue :=
  if defaultTxt.jsTruthy then .str (jsFormat (jsToString defaultTxt) args) else .str key

/-- Body of `ln` after the loading-state guards (lines 212–230): trim the
first segment only, handle the malformed-key case, then test
`data?.hasOwnProperty(keyPart)` — a call that sits OUTSIDE the `try`, so a
document whose own `"hasOwnProperty"` key shadows the method makes it throw
uncaught; a top-level miss returns the fallback unformatted.  Then descend;
on success a string value is formatted with the call's arguments (and so is
the fallback produced by the catch), a non-string value is returned
as-is. -/
def lnMain (data : JSValue) (key : String) (args : List JSValue) (defaultTxt : JSValue) :
    Except String JSValue :=
  let splitKey := jsSplitDot key
  let keyPart := jsTrim (splitKey.headD "")
  if keyPart = "" then .ok (.str "unknown")
  else if data.jsHasOwn "hasOwnProperty" then
    .error "TypeError: data.hasOwnProperty is not a function"
  else if ¬ (data.notNullish ∧ data.jsHasOwn keyPart) then
    .ok (notFoundFallback defaultTxt key args)
  else
    let value :=
      match descendSegs (data.jsGetProp keyPart) splitKey.tail with
      | some v => v
      | none => notFoundFallback defaultTxt key args
    match value with
    | .str s => .ok (.str (jsFormat s args))
    | v => .ok v

/-- The public lookup `ln` (useLanguage, lines 201–233), over the engine state
(current document `data` — `undef` before any load — and the loading flag).
`Except.error` models an uncaught JavaScript exception escaping the call. -/
def ln (data : JSValue) (loading : Bool) (key : String) (args : List JSValue) :
    Except String JSValue :=
  match checkOverride args with
  | .thrown msg => .error msg
  | .present dv =>
    if ¬ data.jsTruthy ∨ loading then .ok (.str "")
    else lnMain data key args dv
  | .absent =>
    if ¬ data.jsTruthy ∧ loading then .ok (.str "")
    else lnMain data key args (.str "")

/-- The public plural lookup `lnPlural` (lines 236–249): select the form for
the current language (`selectFormE`, whose prototype-chain cases can throw),
extend the key path, and re-invoke `ln` with the count prepended to the
arguments. -/
def lnPlural (data : JSValue) (loading : Bool) (langKey : String) (key : String)
    (count : Int) (args : List JSValue) : Except String JSValue :=
  match selectFormE langKey count with
  | .error e => .error e
  | .ok form => ln data loading (key ++ "." ++ form) (.num count :: args)

namespace JSValue

/-- Keys enumerated by `for (const key in x)` / `Object.keys(x)` on own
enumerable properties: object field names in insertion order, array (and,
for `Object.keys`, boxed string) index keys; primitives enumerate nothing. -/
def jsKeys : JSValue → List String
  | .obj fields => fields.map Prod.fst
  | .arr elems => (List.range elems.length).map idxStr
  | .str s => (List.range (utf16Units s.data).length).map idxStr
  | _ => []

theorem sizeOf_lookupField_lt {fields : List (String × JSValue)} {k : String} {v : JSValue}
    (h : lookupField fields k = some v) : sizeOf v < sizeOf (JSValue.obj fields) := by
  induction fields with
  | nil => simp [lookupField] at h
  | cons f rest ih =>
    obtain ⟨k', v'⟩ := f
    rw [lookupField] at h
    by_cases hk : k' = k
    · rw [if_pos hk] at h
      cases h
      simp
      omega
    · rw [if_neg hk] at h
      have := ih h
      simp at this ⊢
      omega

theorem sizeOf_mem_elems_lt {elems : List JSValue} {v : JSValue}
    (h : v ∈ elems) : sizeOf v < sizeOf (JSValue.arr elems) := by
  induction elems with
  | nil => simp at h
  | cons e rest ih =>
    rcases List.mem_cons.mp h with h | h
    · subst h
      simp
      omega
    · have := ih h
      simp at this ⊢
      omega

theorem sizeOf_jsGetProp_lt {s : JSValue} {k : String}
    (hown : s.jsHasOwn k = true) (hobj : (s.jsGetProp k).isNonArrayObj = true) :
    sizeOf (s.jsGetProp k) < sizeOf s := by
  cases s with
  | obj fields =>
    simp only [jsHasOwn, Option.isSome_iff_exists] at hown
    obtain ⟨v, hv⟩ := hown
    simp only [jsGetProp, hv, Option.getD_some]
    exact sizeOf_lookupField_lt hv
  | arr elems =>
    by_cases hk : k = "length"
    · simp [jsGetProp, hk, isNonArrayObj] at hobj
    · rcases hi : idxOf k elems.length with - | i
      · simp [jsGetProp, hk, hi, isNonArrayObj] at hobj
      · rcases he : elems[i]? with - | v
        · simp [jsGetProp, hk, hi, List.get?_eq_getElem?, he, isNonArrayObj] at hobj
        · simp only [jsGetProp, beq_iff_eq, hk, if_false, hi, List.get?_eq_getElem?, he,
            Option.some_bind, Option.getD_some]
          exact sizeOf_mem_elems_lt (List.getElem?_mem he)
  | str s =>
    by_cases hk : k = "length"
    · simp [jsGetProp, hk, isNonArrayObj] at hobj
    · rcases hi : idxOf k (utf16Units s.data).length with - | i
      · simp [jsGetProp, hk, hi, isNonArrayObj] at hobj
      · rcases he : (utf16Units s.data)[i]? with - | c
        · simp [jsGetProp, hk, hi, List.get?_eq_getElem?, he, isNonArrayObj] at hobj
        · simp [jsGetProp, hk, hi, List.get?_eq_getElem?, he, isNonArrayObj] at hobj
  | undef => simp [jsHasOwn] at hown
  | null => simp [jsHasOwn] at hown
  | bool b => simp [jsHasOwn] at hown
  | num n => simp [jsHasOwn] at hown

/-- The TypeError raised by an `obj.hasOwnProperty(key)` guard call when the
object's own `"hasOwnProperty"` key — a legal JSON key — shadows the
inherited method with a non-callable value. -/
def hasOwnErr : String := "TypeError: obj.hasOwnProperty is not a function"

mutual

/-- Deep copy performed by `deepMerge({}, z)` — merging a single value into a
fresh empty result (src/objectHelpers.ts, lines 17–41, with the accumulator
empty).  Iterating an object that owns a `"hasOwnProperty"` key throws at
the first guard call of line 24, before any key is processed.  Extracted as
its own structurally recursive function; the lemma `mergeInto_emptyObj`
proves it equal to `mergeInto (.obj []) z` on well-formed values. -/
def deepCopyM : JSValue → Except String JSValue
  | .obj fields =>
    if (lookupField fields "hasOwnProperty").isSome then .error hasOwnErr
    else copyFields (.obj []) fields
  | .arr elems => copyElems (.obj []) 0 elems
  | _ => .ok (.obj [])

/-- Copy the fields of an object into the accumulator, in order: a non-array
document value is copied deeply, any other value is taken as-is (arrays and
primitives are assigned by reference, never iterated here). -/
def copyFields : JSValue → List (String × JSValue) → Except String JSValue
  | r, [] => .ok r
  | r, (k, v) :: rest =>
    if v.isNonArrayObj then
      match deepCopyM v with
      | .error e => .error e
      | .ok c => copyFields (setProp r k c) rest
    else copyFields (setProp r k v) rest

/-- Copy array elements into the accumulator under their index keys. -/
def copyElems : JSValue → Nat → List JSValue → Except String JSValue
  | r, _, [] => .ok r
  | r, i, v :: rest =>
    if v.isNonArrayObj then
      match deepCopyM v with
      | .error e => .error e
      | .ok c => copyElems (setProp r (idxStr i) c) (i + 1) rest
    else copyElems (setProp r (idxStr i) v) (i + 1) rest

end

/-- Copy of a single incoming value (the two branches of lines 26–36 against
an empty accumulated value). -/
def copyVal (v : JSValue) : Except String JSValue :=
  if v.isNonArrayObj then deepCopyM v else .ok v

theorem copyFields_cons (r : JSValue) (k : String) (v : JSValue)
    (rest : List (String × JSValue)) :
    copyFields r ((k, v) :: rest) =
      match copyVal v with
      | .error e => .error e
      | .ok c => copyFields (setProp r k c) rest := by
  by_cases h : v.isNonArrayObj = true
  · rw [copyFields, if_pos h, copyVal, if_pos h]
  · rw [copyFields, if_neg h, copyVal, if_neg h]

theorem copyElems_cons (r : JSValue) (i : Nat) (v : JSValue) (rest : List JSValue) :
    copyElems r i (v :: rest) =
      match copyVal v with
      | .error e => .error e
      | .ok c => copyElems (setProp r (idxStr i) c) (i + 1) rest := by
  by_cases h : v.isNonArrayObj = true
  · rw [copyElems, if_pos h, copyVal, if_pos h]
  · rw [copyElems, if_neg h, copyVal, if_neg h]

mutual

/-- One pass of the `for (const obj of objects)` body of `deepMerge`
(src/objectHelpers.ts, lines 20–37): a falsy or non-`object` input is
skipped; an object input owning a `"hasOwnProperty"` key makes the guard
call of line 24 throw at its first key; otherwise the input's own
enumerable keys are folded into the accumulated result (array inputs
enumerate their index keys, whose inherited `hasOwnProperty` is intact). -/
def mergeInto : JSValue → JSValue → Except String JSValue
  | r, .obj fields =>
    if (lookupField fields "hasOwnProperty").isSome then .error hasOwnErr
    else mergeFields r fields
  | r, .arr elems => mergeElems r 0 elems
  | r, _ => .ok r

/-- Fold the fields of one input object into the result, in key order: for a
non-array document value,
`result[key] = deepMerge(result[key] || {}, obj[key])` — written as the deep
copy of the accumulated value followed by `mergeInto`, which unfolds the
inner two-argument `deepMerge` call by `mergeInto_emptyObj`; for any other
value, `result[key] = obj[key]`.  Either inner step can throw the shadowed
`hasOwnProperty` TypeError, which propagates out of the whole merge. -/
def mergeFields : JSValue → List (String × JSValue) → Except String JSValue
  | r, [] => .ok r
  | r, (k, v) :: rest =>
    if v.isNonArrayObj then
      match deepCopyM (jsOrEmptyObj (r.jsGetProp k)) with
      | .error e => .error e
      | .ok c =>
        match mergeInto c v with
        | .error e => .error e
        | .ok m => mergeFields (setProp r k m) rest
    else mergeFields (setProp r k v) rest

/-- Fold the elements of one input array into the result under index keys. -/
def mergeElems : JSValue → Nat → List JSValue → Except String JSValue
  | r, _, [] => .ok r
  | r, i, v :: rest =>
    if v.isNonArrayObj then
      match deepCopyM (jsOrEmptyObj (r.jsGetProp (idxStr i))) with
      | .error e => .error e
      | .ok c =>
        match mergeInto c v with
        | .error e => .error e
        | .ok m => mergeElems (setProp r (idxStr i) m) (i + 1) rest
    else mergeElems (setProp r (idxStr i) v) (i + 1) rest

end

/-- One key of the `for (const key in obj)` body (lines 23–36). -/
def mergeStep (r : JSValue) (k : String) (v : JSValue) : Except String JSValue :=
  if v.isNonArrayObj then
    match deepCopyM (jsOrEmptyObj (r.jsGetProp k)) with
    | .error e => .error e
    | .ok c =>
      match mergeInto c v with
      | .error e => .error e
      | .ok m => .ok (setProp r k m)
  else .ok (setProp r k v)

theorem mergeFields_cons (r : JSValue) (k : String) (v : JSValue)
    (rest : List (String × JSValue)) :
    mergeFields r ((k, v) :: rest) =
      match mergeStep r k v with
      | .error e => .error e
      | .ok r2 => mergeFields r2 rest := by
  by_cases h : v.isNonArrayObj = true
  · rw [mergeFields, if_pos h, mergeStep, if_pos h]
    rcases hdc : deepCopyM (jsOrEmptyObj (r.jsGetProp k)) with e | c
    · simp only [hdc]
    · simp only [hdc]
      rcases hmi : mergeInto c v with e | m <;> simp only [hmi]
  · rw [mergeFields, if_neg h, mergeStep, if_neg h]

theorem mergeElems_cons (r : JSValue) (i : Nat) (v : JSValue) (rest : List JSValue) :
    mergeElems r i (v :: rest) =
      match mergeStep r (idxStr i) v with
      | .error e => .error e
      | .ok r2 => mergeElems r2 (i + 1) rest := by
  by_cases h : v.isNonArrayObj = true
  · rw [mergeElems, if_pos h, mergeStep, if_pos h]
    rcases hdc : deepCopyM (jsOrEmptyObj (r.jsGetProp (idxStr i))) with e | c
    · simp only [hdc]
    · simp only [hdc]
      rcases hmi : mergeInto c v with e | m <;> simp only [hmi]
  · rw [mergeElems, if_neg h, mergeStep, if_neg h]

/-- The fold of `deepMerge`'s input loop, from an accumulated result. -/
def deepMergeFrom (r : JSValue) : List JSValue → Except String JSValue
  | [] => .ok r
  | v :: rest =>
    match mergeInto r v with
    | .error e => .error e
    | .ok r2 => deepMergeFrom r2 rest

/-- `deepMerge(...objects)` (src/objectHelpers.ts, lines 17–41): fold every
input into a fresh empty result; a thrown guard call propagates out of the
whole merge. -/
def deepMerge (objects : List JSValue) : Except String JSValue :=
  deepMergeFrom (.obj []) objects

theorem deepMergeFrom_nil (r : JSValue) : deepMergeFrom r [] = .ok r := rfl

theorem deepMergeFrom_cons (r v : JSValue) (rest : List JSValue) :
    deepMergeFrom r (v :: rest) =
      match mergeInto r v with
      | .error e => .error e
      | .ok r2 => deepMergeFrom r2 rest := rfl

mutual

/-- The recursive call `strictDeepMerge(target[key], source[key])`
(src/objectHelpers.ts, line 94) — including the no-op guard of lines 75–77. -/
def strictMergePair (tv sv : JSValue) : Except String JSValue :=
  if ¬ tv.jsTruthy ∨ tv.jsKeys = [] then .ok tv
  else strictMergeOne tv sv
termination_by (sizeOf sv, tv.jsKeys.length + 3)
decreasing_by all_goals omega

/-- One pass of `for (const source of sources)` (lines 79–100): a falsy or
non-`object` source is skipped; otherwise every key of `target` is visited,
and the two `hasOwnProperty` guard calls of line 83 run for the first key —
so a target or source whose own `"hasOwnProperty"` key shadows the method
throws there (the target is non-empty at every call site, the no-op guard
having already returned otherwise). -/
def strictMergeOne (t s : JSValue) : Except String JSValue :=
  if ¬ s.jsTruthy ∨ ¬ s.typeofObject then .ok t
  else if t.jsHasOwn "hasOwnProperty" then .error hasOwnErr
  else if s.jsHasOwn "hasOwnProperty" then .error hasOwnErr
  else strictMergeKeys t s t.jsKeys
termination_by (sizeOf s, t.jsKeys.length + 2)
decreasing_by all_goals omega

/-- Visit the (snapshot of the) target keys in order; only values are ever
assigned, so the snapshot stays equal to the live key list. -/
def strictMergeKeys (t s : JSValue) (ks : List String) : Except String JSValue :=
  match ks with
  | [] => .ok t
  | k :: rest =>
    match strictMergeKey t s k with
    | .error e => .error e
    | .ok t2 => strictMergeKeys t2 s rest
termination_by (sizeOf s, ks.length + 1)
decreasing_by all_goals simp_wf; all_goals omega

/-- One key of `for (const key in target)` (lines 82–98): skipped unless both
sides own the key; recurse when both values are non-array documents, else
overwrite the target value with the source value. -/
def strictMergeKey (t s : JSValue) (k : String) : Except String JSValue :=
  if h1 : t.jsHasOwn k ∧ s.jsHasOwn k then
    if h2 : (t.jsGetProp k).isNonArrayObj ∧ (s.jsGetProp k).isNonArrayObj then
      match strictMergePair (t.jsGetProp k) (s.jsGetProp k) with
      | .error e => .error e
      | .ok m => .ok (setProp t k m)
    else .ok (setProp t k (s.jsGetProp k))
  else .ok t
termination_by (sizeOf s, 0)
decreasing_by
  have := sizeOf_jsGetProp_lt h1.2 h2.2
  omega

end

/-- Fold of the sources into the (mutated) target, stopping at a throw. -/
def strictMergeAll (t : JSValue) : List JSValue → Except String JSValue
  | [] => .ok t
  | s :: rest =>
    match strictMergeOne t s with
    | .error e => .error e
    | .ok t2 => strictMergeAll t2 rest

/-- `strictDeepMerge(target, ...sources)` (src/objectHelpers.ts, lines
71–103): the `!target || Object.keys(target).length === 0` no-op guard, then
a fold of the sources into the (mutated) target. -/
def strictDeepMerge (target : JSValue) (sources : List JSValue) : Except String JSValue :=
  if ¬ target.jsTruthy ∨ target.jsKeys = [] then .ok target
  else strictMergeAll target sources

theorem strictMergeAll_nil (t : JSValue) : strictMergeAll t [] = .ok t := rfl

theorem strictMergeAll_cons (t s : JSValue) (rest : List JSValue) :
    strictMergeAll t (s :: rest) =
      match strictMergeOne t s with
      | .error e => .error e
      | .ok t2 => strictMergeAll t2 rest := rfl

end JSValue

/-! ## Claim C8 — plural rule selection (corrected) -/

/-- Counterexample to claim C8 as stated: the claim says the default rule is
used for EVERY language identifier absent from the table.  The bare read
`PLURAL_RULES[language.key]` also finds the members `Object.prototype` lends
to the table object: for the unlisted identifier `"toString"` the inherited
native function is truthy, so the `||` never reaches the default rule, and
the strict-mode call `rule(count)` returns `"[object Undefined]"` instead of
the default rule's tag; for `"valueOf"` the call throws outright. -/
theorem C8_counterexample_prototype_identifier :
    selectFormE "toString" 1 = .ok "[object Undefined]" ∧
    applyPluralRule .eq1 1 = "singular" ∧
    ("[object Undefined]" : String) ≠ "singular" ∧
    selectFormE "valueOf" 1 = .error "TypeError: undefined is not an object" :=
  ⟨rfl, rfl, by decide, rfl⟩

/-- Claim C8 as amended: the rule for `"fr"` returns `"singular"` exactly
when count ≤ 1 (first conjunct); the rules for the other listed languages
return `"singular"` exactly when count = 1 (second conjunct); the default
rule — with the same count = 1 test — is used exactly for the identifiers
absent from the table AND from `Object.prototype` (third conjunct).  An
unlisted prototype-colliding identifier instead selects the inherited
member: `"toString"` always yields the form `"[object Undefined]"`,
`"constructor"` yields the decimal count (the inherited `Object` constructor
boxes the count, which the key template literal renders back),
`"isPrototypeOf"` yields `"false"`, while `"valueOf"` — like the remaining
method names and the underscore accessors — raises a TypeError (remaining
conjuncts). -/
theorem C8_amended_plural_rule_selection (count : Int) (lang : String) :
    selectFormE "fr" count = .ok (if count ≤ 1 then "singular" else "plural") ∧
    (lang ∈ ["en", "es", "de", "it", "pt", "nl"] →
      selectFormE lang count = .ok (if count = 1 then "singular" else "plural")) ∧
    (lang ∉ ["fr", "es", "en", "de", "it", "pt", "nl", "default"] →
      lang ∉ objProtoKeys →
      selectFormE lang count = .ok (if count = 1 then "singular" else "plural")) ∧
    selectFormE "toString" count = .ok "[object Undefined]" ∧
    selectFormE "constructor" count = .ok (toString count) ∧
    selectFormE "isPrototypeOf" count = .ok "false" ∧
    selectFormE "valueOf" count = .error "TypeError: undefined is not an object" ∧
    selectFormE "__proto__" count = .error "TypeError: rule is not a function" := by
  refine ⟨by simp [selectFormE, PLURAL_RULES, List.lookup, applyPluralRule],
    ?_, ?_, rfl, rfl, rfl, rfl, rfl⟩
  · intro hmem
    simp only [List.mem_cons, List.not_mem_nil, or_false] at hmem
    rcases hmem with h | h | h | h | h | h <;> subst h <;>
      simp [selectFormE, PLURAL_RULES, List.lookup, applyPluralRule]
  · intro hmem hproto
    simp only [List.mem_cons, List.not_mem_nil, or_false, not_or] at hmem
    simp only [objProtoKeys, List.mem_cons, List.not_mem_nil, or_false, not_or] at hproto
    obtain ⟨h1, h2, h3, h4, h5, h6, h7, h8⟩ := hmem
    obtain ⟨g1, g2, g3, g4, g5, g6, g7, g8, g9, g10, g11, g12⟩ := hproto
    simp [selectFormE, PLURAL_RULES, List.lookup, applyPluralRule,
      beq_eq_false_iff_ne.mpr h1, beq_eq_false_iff_ne.mpr h2, beq_eq_false_iff_ne.mpr h3,
      beq_eq_false_iff_ne.mpr h4, beq_eq_false_iff_ne.mpr h5, beq_eq_false_iff_ne.mpr h6,
      beq_eq_false_iff_ne.mpr h7, beq_eq_false_iff_ne.mpr h8,
      g1, g2, g3, g4, g5, g6, g7, g8, g9, g10, g11, g12]

/-- Witness for the amended C8 at concrete inputs: the French rule at 0, a
listed language at 1, an unlisted non-colliding language at 2, and the
inherited `constructor` at 7. -/
theorem C8_amended_plural_rule_selection_witness :
    selectFormE "fr" 0 = .ok "singular" ∧ selectFormE "de" 1 = .ok "singular" ∧
    selectFormE "xx" 2 = .ok "plural" ∧ selectFormE "constructor" 7 = .ok "7" := by
  refine ⟨?_, ?_, ?_, ?_⟩
  · have h := (C8_amended_plural_rule_selection 0 "de").1
    simpa using h
  · have h := (C8_amended_plural_rule_selection 1 "de").2.1 (by simp)
    simpa using h
  · have h := (C8_amended_plural_rule_selection 2 "xx").2.2.1 (by decide) (by decide)
    simpa using h
  · have h := (C8_amended_plural_rule_selection 7 "xx").2.2.2.2.1
    have he : toString (7 : Int) = "7" := rfl
    rw [he] at h
    exact h

/-! ## Claim C7 — plural lookup composition (corrected) -/

/-- The scenario document of the specification: a plural entry under
`messages.notification` with indexed placeholders in both forms. -/
def pluralScenarioDoc : JSValue :=
  .obj [("messages", .obj [("notification", .obj
    [("singular", .str "You have \x7b\x7b\x7d\x7d new message"),
     ("plural", .str "You have \x7b\x7b\x7d\x7d new messages")])])]

/-- Counterexample to claim C7 as stated: the claim composes `lnPlural` from
`ln` and the table rule's form (default rule if the language is unlisted)
for EVERY language.  For the unlisted language `"toString"` the program
instead selects `Object.prototype.toString` from the table's prototype
chain; the strict-mode call yields the form `"[object Undefined]"`, so the
lookup key is `k.[object Undefined]`, while the claimed composition applies
the default rule and looks up `k.singular`. -/
theorem C7_counterexample_prototype_language :
    lnPlural .undef false "toString" "k" 1 [] = .ok (.str "k.[object Undefined]") ∧
    selectForm "toString" 1 = "singular" ∧
    ln .undef false ("k" ++ "." ++ selectForm "toString" 1) [.num 1] =
      .ok (.str "k.singular") ∧
    (Except.ok (JSValue.str "k.[object Undefined]") : Except String JSValue) ≠
      .ok (.str "k.singular") :=
  ⟨rfl, rfl, rfl, by decide⟩

/-- Claim C7 as amended: for every language that is listed in the table or
absent from `Object.prototype`, `lnPlural(key, count, ...args)` returns
exactly `ln(key + "." + form, count, ...args)` with `form` the
table-or-default rule applied to the count (first conjunct), so the count is
the first positional argument for indexed substitution; the specification's
scenario lookups evaluate accordingly (remaining conjuncts).  For an
unlisted language named after an `Object.prototype` member the composition
fails — the inherited member is selected instead of the default rule (see
the counterexample), and the method-call cases throw. -/
theorem C7_amended_plural_lookup_composition :
    (∀ (data : JSValue) (loading : Bool) (lang key : String) (count : Int)
      (args : List JSValue),
      (PLURAL_RULES.lookup lang).isSome = true ∨ lang ∉ objProtoKeys →
      lnPlural data loading lang key count args =
        ln data loading (key ++ "." ++ selectForm lang count) (.num count :: args)) ∧
    lnPlural pluralScenarioDoc false "en" "messages.notification" 1 [] =
      .ok (.str "You have 1 new message") ∧
    lnPlural pluralScenarioDoc false "en" "messages.notification" 5 [] =
      .ok (.str "You have 5 new messages") := by
  refine ⟨?_, rfl, rfl⟩
  intro data loading lang key count args h
  have hform : selectFormE lang count = .ok (selectForm lang count) := by
    rcases hlook : PLURAL_RULES.lookup lang with - | r
    · rcases h with h | h
      · rw [hlook] at h
        simp at h
      · simp only [objProtoKeys, List.mem_cons, List.not_mem_nil, or_false, not_or] at h
        obtain ⟨g1, g2, g3, g4, g5, g6, g7, g8, g9, g10, g11, g12⟩ := h
        rw [selectFormE, hlook, selectForm, hlook]
        simp [g1, g2, g3, g4, g5, g6, g7, g8, g9, g10, g11, g12]
    · rw [selectFormE, hlook, selectForm, hlook]
      rfl
  rw [lnPlural, hform]

/-- Witness for the amended C7: the composition applied at a concrete listed
language, document, and count. -/
theorem C7_amended_plural_lookup_composition_witness :
    lnPlural (.obj [("greet", .str "hi")]) false "en" "greet" 2 [] =
      ln (.obj [("greet", .str "hi")]) false ("greet" ++ "." ++ selectForm "en" 2)
        [.num 2] := by
  exact (C7_amended_plural_lookup_composition).1 (.obj [("greet", .str "hi")])
    false "en" "greet" 2 [] (Or.inl (by decide))

/-! ## Claim C1 — the never-throw policy (code bug) -/

/-- Claim C1 (code bug): the claim states that `ln` and `lnPlural` never
throw for any input.  The code violates this on one input class: when the
last trailing argument is `null`, the guard
`typeof args[args.length - 1] === "object"` succeeds (JavaScript `typeof
null` is `"object"`) and the subsequent
`args[args.length - 1].hasOwnProperty("defaultTxt")` call raises a
`TypeError` — before any of the fallback paths can run, regardless of the
document or loading state.  The defensive style of the rest of `ln`
(optional chaining, the `try`/`catch` around descent) shows the never-throw
policy is the intent and this unguarded call a slip. -/
theorem C1_ln_throws_on_null_trailing_argument :
    ln (.obj [("a", .str "x")]) false "a" [.null] =
      .error "TypeError: null.hasOwnProperty" ∧
    ln .undef true "anything" [.null] = .error "TypeError: null.hasOwnProperty" ∧
    lnPlural (.obj []) false "en" "a" 1 [.null] =
      .error "TypeError: null.hasOwnProperty" :=
  ⟨rfl, rfl, rfl⟩

/-! ## Formatter lemmas -/

theorem formatAux_nilChars (f : Nat) (args : List JSValue) (named : JSValue) :
    formatAux f [] args named = "" := by
  cases f <;> rfl

theorem formatAux_cons_of_ne_lbrace (f : Nat) (c : Char) (cs : List Char)
    (args : List JSValue) (named : JSValue) (hc : c ≠ lbraceChar) :
    formatAux (f + 1) (c :: cs) args named = String.mk [c] ++ formatAux f cs args named := by
  cases cs with
  | nil =>
    rw [formatAux, formatAux_nilChars]
    rfl
  | cons c2 cs2 =>
    rw [formatAux]
    simp [hc]

theorem digitChar10_bounded_inj :
    ∀ a < 10, ∀ b < 10, digitChar10 a = digitChar10 b → a = b := by
  decide

theorem digitChar10_inj {a b : Nat} (ha : a < 10) (hb : b < 10)
    (h : digitChar10 a = digitChar10 b) : a = b :=
  digitChar10_bounded_inj a ha b hb h

theorem idxDigitsF_fuel_irrel :
    ∀ (f1 : Nat), ∀ {f2 n : Nat}, n < f1 → n < f2 →
      idxDigitsF f1 n = idxDigitsF f2 n := by
  intro f1
  induction f1 with
  | zero => intro f2 n h1 _; omega
  | succ f1 ih =>
    intro f2 n h1 h2
    cases f2 with
    | zero => omega
    | succ f2 =>
      rw [idxDigitsF, idxDigitsF]
      by_cases hn : n < 10
      · rw [if_pos hn, if_pos hn]
      · rw [if_neg hn, if_neg hn]
        have hdiv : n / 10 < n := Nat.div_lt_self (by omega) (by omega)
        exact congrArg (· ++ [digitChar10 (n % 10)])
          (ih (show n / 10 < f1 by omega) (show n / 10 < f2 by omega))

theorem idxDigitsF_ne_nil : ∀ (f n : Nat), 0 < f → idxDigitsF f n ≠ [] := by
  intro f n hf
  cases f with
  | zero => omega
  | succ f =>
    rw [idxDigitsF]
    by_cases hn : n < 10
    · rw [if_pos hn]; simp
    · rw [if_neg hn]; simp

theorem idxDigitsF_canonical_inj :
    ∀ (n1 n2 : Nat), idxDigitsF (n1 + 1) n1 = idxDigitsF (n2 + 1) n2 → n1 = n2 := by
  intro n1
  induction n1 using Nat.strong_induction_on with
  | _ n1 ih =>
    intro n2 h
    rw [idxDigitsF, idxDigitsF] at h
    by_cases h1 : n1 < 10 <;> by_cases h2 : n2 < 10
    · rw [if_pos h1, if_pos h2] at h
      simp only [List.cons.injEq, and_true] at h
      exact digitChar10_inj h1 h2 h
    · rw [if_pos h1, if_neg h2] at h
      have hne := idxDigitsF_ne_nil n2 (n2 / 10) (by omega)
      have hlen := congrArg List.length h
      simp only [List.length_cons, List.length_nil, List.length_append] at hlen
      cases hc : idxDigitsF n2 (n2 / 10) with
      | nil => exact absurd hc hne
      | cons x xs => rw [hc] at hlen; simp at hlen
    · rw [if_neg h1, if_pos h2] at h
      have hne := idxDigitsF_ne_nil n1 (n1 / 10) (by omega)
      have hlen := congrArg List.length h
      simp only [List.length_cons, List.length_nil, List.length_append] at hlen
      cases hc : idxDigitsF n1 (n1 / 10) with
      | nil => exact absurd hc hne
      | cons x xs => rw [hc] at hlen; simp at hlen
    · rw [if_neg h1, if_neg h2] at h
      have hrev := congrArg List.reverse h
      simp only [List.reverse_append, List.reverse_cons, List.reverse_nil,
        List.nil_append, List.cons_append, List.cons.injEq] at hrev
      obtain ⟨hd, ht⟩ := hrev
      have hmod : n1 % 10 = n2 % 10 :=
        digitChar10_inj (Nat.mod_lt _ (by omega)) (Nat.mod_lt _ (by omega)) hd
      have htails : idxDigitsF n1 (n1 / 10) = idxDigitsF n2 (n2 / 10) := by
        have := congrArg List.reverse ht
        simpa using this
      have hdiv1 : n1 / 10 < n1 := Nat.div_lt_self (by omega) (by omega)
      have hdiv2 : n2 / 10 < n2 := Nat.div_lt_self (by omega) (by omega)
      have hc1 : idxDigitsF n1 (n1 / 10) = idxDigitsF (n1 / 10 + 1) (n1 / 10) :=
        idxDigitsF_fuel_irrel n1 (by omega) (by omega)
      have hc2 : idxDigitsF n2 (n2 / 10) = idxDigitsF (n2 / 10 + 1) (n2 / 10) :=
        idxDigitsF_fuel_irrel n2 (by omega) (by omega)
      rw [hc1, hc2] at htails
      have := ih (n1 / 10) hdiv1 (n2 / 10) htails
      omega

theorem idxStr_inj {n1 n2 : Nat} (h : idxStr n1 = idxStr n2) : n1 = n2 := by
  unfold idxStr at h
  have : idxDigitsF (n1 + 1) n1 = idxDigitsF (n2 + 1) n2 := by
    injection h
  exact idxDigitsF_canonical_inj n1 n2 this

namespace JSValue

/-- No duplicate keys in a key list (JavaScript objects cannot carry two own
properties with the same name). -/
def keysNodup : List String → Bool
  | [] => true
  | k :: rest => !(rest.contains k) && keysNodup rest

mutual

/-- A `JSValue` that denotes an actual JavaScript value: every object level
has pairwise-distinct keys. -/
def wfJS : JSValue → Bool
  | .obj fields => keysNodup (fields.map Prod.fst) && wfFields fields
  | .arr elems => wfElems elems
  | _ => true

/-- All field values well-formed. -/
def wfFields : List (String × JSValue) → Bool
  | [] => true
  | (_, v) :: rest => wfJS v && wfFields rest

/-- All elements well-formed. -/
def wfElems : List JSValue → Bool
  | [] => true
  | v :: rest => wfJS v && wfElems rest

end

mutual

/-- No object at any level owns a `"hasOwnProperty"` or `"__proto__"` key.
The first is modelled (the mergers' `obj.hasOwnProperty(key)` guard calls
throw a TypeError on it); the second would make `result[key] = ...` write
through the inherited `__proto__` accessor, MUTATING THE PROTOTYPE of the
result instead of creating an own key — prototype mutation is outside this
embedding, so the merge claims assume this predicate.  Both are legal but
pathological JSON keys; every practical translation document satisfies
it.  (The other inherited names are harmless here: reading
`result["toString"]` and the like yields an inherited function, which the
merge skips exactly as it skips an empty object, and the subsequent
assignment creates an ordinary own key.) -/
def safeKeys : JSValue → Bool
  | .obj fields =>
    !(lookupField fields "hasOwnProperty").isSome &&
    !(lookupField fields "__proto__").isSome && safeKeysFields fields
  | .arr elems => safeKeysElems elems
  | _ => true

/-- All field values key-safe. -/
def safeKeysFields : List (String × JSValue) → Bool
  | [] => true
  | (_, v) :: rest => safeKeys v && safeKeysFields rest

/-- All elements key-safe. -/
def safeKeysElems : List JSValue → Bool
  | [] => true
  | v :: rest => safeKeys v && safeKeysElems rest

end

theorem keysNodup_cons {k : String} {rest : List String} :
    keysNodup (k :: rest) = true ↔ (k ∉ rest ∧ keysNodup rest = true) := by
  rw [keysNodup]
  simp

theorem lookupField_setField (fields : List (String × JSValue)) (k k' : String) (v : JSValue) :
    lookupField (setProp.setField fields k v) k' =
      if k = k' then some v else lookupField fields k' := by
  induction fields with
  | nil =>
    simp only [setProp.setField, lookupField]
  | cons f rest ih =>
    obtain ⟨k1, v1⟩ := f
    simp only [setProp.setField]
    by_cases h1 : k1 = k
    · rw [if_pos h1]
      subst h1
      simp only [lookupField]
      by_cases h2 : k1 = k'
      · simp [h2]
      · simp [h2]
    · rw [if_neg h1]
      simp only [lookupField, ih]
      by_cases h2 : k1 = k'
      · have hk : ¬ k = k' := fun he => h1 (by rw [he, h2])
        simp [h2, hk]
      · simp [h2]

theorem keys_setField_of_mem (fields : List (String × JSValue)) (k : String) (v : JSValue)
    (h : (lookupField fields k).isSome) :
    (setProp.setField fields k v).map Prod.fst = fields.map Prod.fst := by
  induction fields with
  | nil => simp [lookupField] at h
  | cons f rest ih =>
    obtain ⟨k1, v1⟩ := f
    rw [lookupField] at h
    rw [setProp.setField]
    by_cases h1 : k1 = k
    · rw [if_pos h1, List.map_cons, List.map_cons]
      simp [h1]
    · rw [if_neg h1, List.map_cons, List.map_cons, ih (by rw [if_neg h1] at h; exact h)]

theorem keys_setField_of_not_mem (fields : List (String × JSValue)) (k : String) (v : JSValue)
    (h : lookupField fields k = none) :
    (setProp.setField fields k v).map Prod.fst = fields.map Prod.fst ++ [k] := by
  induction fields with
  | nil => rfl
  | cons f rest ih =>
    obtain ⟨k1, v1⟩ := f
    rw [lookupField] at h
    by_cases h1 : k1 = k
    · rw [if_pos h1] at h; simp at h
    · rw [if_neg h1] at h
      rw [setProp.setField, if_neg h1, List.map_cons, List.map_cons, ih h, List.cons_append]

theorem getProp_setProp_same (fields : List (String × JSValue)) (k : String) (v : JSValue) :
    (setProp (.obj fields) k v).jsGetProp k = v := by
  rw [setProp, jsGetProp, lookupField_setField, if_pos rfl, Option.getD_some]

theorem getProp_setProp_other (fields : List (String × JSValue)) (k k' : String) (v : JSValue)
    (h : k ≠ k') :
    (setProp (.obj fields) k v).jsGetProp k' = (JSValue.obj fields).jsGetProp k' := by
  rw [setProp, jsGetProp, lookupField_setField, if_neg h, jsGetProp]

theorem hasOwn_setProp (fields : List (String × JSValue)) (k k' : String) (v : JSValue) :
    (setProp (.obj fields) k v).jsHasOwn k' =
      (k = k' || (JSValue.obj fields).jsHasOwn k') := by
  rw [setProp, jsHasOwn, lookupField_setField, jsHasOwn]
  by_cases h : k = k'
  · simp [h]
  · simp [h]

end JSValue

namespace JSValue

theorem isNonArrayObj_setProp (r : JSValue) (k : String) (v : JSValue)
    (hr : r.isNonArrayObj = true) : (setProp r k v).isNonArrayObj = true := by
  cases r <;> simp_all [isNonArrayObj, setProp]

theorem getProp_setProp_same' (r : JSValue) (k : String) (v : JSValue)
    (hr : r.isNonArrayObj = true) : (setProp r k v).jsGetProp k = v := by
  cases r <;> simp_all [isNonArrayObj]
  apply getProp_setProp_same

theorem getProp_setProp_other' (r : JSValue) (k k' : String) (v : JSValue)
    (hr : r.isNonArrayObj = true) (h : k ≠ k') :
    (setProp r k v).jsGetProp k' = r.jsGetProp k' := by
  cases r <;> simp_all [isNonArrayObj]
  apply getProp_setProp_other
  exact h

theorem hasOwn_setProp' (r : JSValue) (k k' : String) (v : JSValue)
    (hr : r.isNonArrayObj = true) :
    (setProp r k v).jsHasOwn k' = (k = k' || r.jsHasOwn k') := by
  cases r <;> simp_all [isNonArrayObj]
  apply hasOwn_setProp

end JSValue

namespace JSValue

theorem sizeOf_mem_fields_lt {fields : List (String × JSValue)} {k : String} {v : JSValue}
    (h : (k, v) ∈ fields) : sizeOf v < sizeOf (JSValue.obj fields) := by
  induction fields with
  | nil => simp at h
  | cons f rest ih =>
    rcases List.mem_cons.mp h with h | h
    · subst h
      simp
      omega
    · have := ih h
      simp at this ⊢
      omega

theorem lookupField_of_none_append (l1 l2 : List (String × JSValue)) (k : String)
    (h : lookupField l1 k = none) : lookupField (l1 ++ l2) k = lookupField l2 k := by
  induction l1 with
  | nil => rfl
  | cons f rest ih =>
    obtain ⟨k1, v1⟩ := f
    rw [lookupField] at h
    by_cases h1 : k1 = k
    · rw [if_pos h1] at h; simp at h
    · rw [if_neg h1] at h
      rw [List.cons_append, lookupField, if_neg h1, ih h]

theorem setField_of_absent (fields : List (String × JSValue)) (k : String) (v : JSValue)
    (h : lookupField fields k = none) :
    setProp.setField fields k v = fields ++ [(k, v)] := by
  induction fields with
  | nil => rfl
  | cons f rest ih =>
    obtain ⟨k1, v1⟩ := f
    rw [lookupField] at h
    by_cases h1 : k1 = k
    · rw [if_pos h1] at h; simp at h
    · rw [if_neg h1] at h
      rw [setProp.setField, if_neg h1, ih h, List.cons_append]

theorem getProp_undef_of_not_hasOwn (r : JSValue) (k : String)
    (hr : r.isNonArrayObj = true) (h : r.jsHasOwn k = false) :
    r.jsGetProp k = .undef := by
  cases r with
  | obj fields =>
    rw [jsHasOwn] at h
    have hn : lookupField fields k = none :=
      Option.not_isSome_iff_eq_none.mp (by simp [h])
    rw [jsGetProp, hn]
    rfl
  | undef => simp [isNonArrayObj] at hr
  | null => simp [isNonArrayObj] at hr
  | bool b => simp [isNonArrayObj] at hr
  | num n => simp [isNonArrayObj] at hr
  | str s => simp [isNonArrayObj] at hr
  | arr elems => simp [isNonArrayObj] at hr

theorem copyFields_id_aux (fields : List (String × JSValue)) :
    ∀ (acc : List (String × JSValue)),
      (∀ k v, (k, v) ∈ fields → lookupField acc k = none) →
      keysNodup (fields.map Prod.fst) = true →
      (∀ k v, (k, v) ∈ fields → copyVal v = .ok v) →
      copyFields (.obj acc) fields = .ok (.obj (acc ++ fields)) := by
  induction fields with
  | nil =>
    intro acc _ _ _
    rw [copyFields, List.append_nil]
  | cons f rest ih =>
    obtain ⟨k1, v1⟩ := f
    intro acc hfresh hnd hvals
    rw [List.map_cons, keysNodup_cons] at hnd
    rw [copyFields_cons, hvals k1 v1 (by simp)]
    dsimp only
    rw [setProp, setField_of_absent acc k1 _ (hfresh k1 v1 (by simp))]
    rw [ih (acc ++ [(k1, v1)])
      (by
        intro k v hkv
        rw [lookupField_of_none_append _ _ k (hfresh k v (by simp [hkv]))]
        rw [lookupField, lookupField]
        have hk1 : ¬ k1 = k := by
          intro he
          exact hnd.1 (he ▸ (List.mem_map.mpr ⟨(k, v), hkv, rfl⟩))
        rw [if_neg hk1])
      hnd.2 (fun k v hkv => hvals k v (by simp [hkv]))]
    simp

end JSValue

namespace JSValue

theorem wfFields_mem : ∀ {fields : List (String × JSValue)} {k : String} {v : JSValue},
    wfFields fields = true → (k, v) ∈ fields → wfJS v = true := by
  intro fields
  induction fields with
  | nil => intro k v _ h; simp at h
  | cons f rest ih =>
    obtain ⟨k1, v1⟩ := f
    intro k v hwf hmem
    rw [wfFields, Bool.and_eq_true] at hwf
    rcases List.mem_cons.mp hmem with h | h
    · cases h; exact hwf.1
    · exact ih hwf.2 h

theorem wfElems_mem : ∀ {elems : List JSValue} {v : JSValue},
    wfElems elems = true → v ∈ elems → wfJS v = true := by
  intro elems
  induction elems with
  | nil => intro v _ h; simp at h
  | cons e rest ih =>
    intro v hwf hmem
    rw [wfElems, Bool.and_eq_true] at hwf
    rcases List.mem_cons.mp hmem with h | h
    · cases h; exact hwf.1
    · exact ih hwf.2 h

theorem safeKeysFields_mem :
    ∀ {fields : List (String × JSValue)} {k : String} {v : JSValue},
    safeKeysFields fields = true → (k, v) ∈ fields → safeKeys v = true := by
  intro fields
  induction fields with
  | nil => intro k v _ h; simp at h
  | cons f rest ih =>
    obtain ⟨k1, v1⟩ := f
    intro k v hsafe hmem
    rw [safeKeysFields, Bool.and_eq_true] at hsafe
    rcases List.mem_cons.mp hmem with h | h
    · cases h; exact hsafe.1
    · exact ih hsafe.2 h

theorem copyVal_id_bound :
    ∀ (n : Nat) (z : JSValue), sizeOf z ≤ n → wfJS z = true → safeKeys z = true →
      copyVal z = .ok z := by
  intro n
  induction n using Nat.strong_induction_on with
  | _ n ih =>
    intro z hsz hwf hsafe
    cases z with
    | obj fields =>
      rw [wfJS, Bool.and_eq_true] at hwf
      rw [safeKeys] at hsafe
      simp only [Bool.and_eq_true, Bool.not_eq_true'] at hsafe
      have hc : (JSValue.obj fields).isNonArrayObj = true := rfl
      have hvals : ∀ k v, (k, v) ∈ fields → copyVal v = .ok v := by
        intro k v hkv
        have hlt : sizeOf v < sizeOf (JSValue.obj fields) := sizeOf_mem_fields_lt hkv
        exact ih (sizeOf v) (by omega) v (Nat.le_refl _) (wfFields_mem hwf.2 hkv)
          (safeKeysFields_mem hsafe.2 hkv)
      rw [copyVal, if_pos hc, deepCopyM, if_neg (by simp [hsafe.1.1]),
        copyFields_id_aux fields [] (by intro k v _; rfl) hwf.1 hvals, List.nil_append]
    | undef => rfl
    | null => rfl
    | bool b => rfl
    | num m => rfl
    | str s => rfl
    | arr elems => rfl

theorem copyVal_id (z : JSValue) (hwf : wfJS z = true) (hsafe : safeKeys z = true) :
    copyVal z = .ok z :=
  copyVal_id_bound (sizeOf z) z (Nat.le_refl _) hwf hsafe

theorem deepCopyM_id (z : JSValue) (hwf : wfJS z = true) (hsafe : safeKeys z = true)
    (hobj : z.isNonArrayObj = true) : deepCopyM z = .ok z := by
  have h := copyVal_id z hwf hsafe
  rw [copyVal, if_pos hobj] at h
  exact h

end JSValue

namespace JSValue

theorem mergeFields_eq_copyFields_aux (N : Nat)
    (IH : ∀ v : JSValue, sizeOf v < N → wfJS v = true →
      mergeInto (.obj []) v = deepCopyM v) :
    ∀ (fields : List (String × JSValue)) (r : JSValue),
      r.isNonArrayObj = true → wfFields fields = true →
      keysNodup (fields.map Prod.fst) = true →
      (∀ k v, (k, v) ∈ fields → sizeOf v < N) →
      (∀ k v, (k, v) ∈ fields → r.jsHasOwn k = false) →
      mergeFields r fields = copyFields r fields := by
  intro fields
  induction fields with
  | nil => intro r _ _ _ _ _; rfl
  | cons f rest ihf =>
    obtain ⟨k1, v1⟩ := f
    intro r hr hwf hnd hszs hfresh
    rw [List.map_cons, keysNodup_cons] at hnd
    rw [wfFields, Bool.and_eq_true] at hwf
    rw [mergeFields_cons, copyFields_cons]
    have hstep : mergeStep r k1 v1 =
        match copyVal v1 with
        | .error e => .error e
        | .ok c => .ok (setProp r k1 c) := by
      rw [mergeStep, copyVal]
      by_cases h1 : v1.isNonArrayObj = true
      · rw [if_pos h1, if_pos h1]
        have hget : r.jsGetProp k1 = .undef :=
          getProp_undef_of_not_hasOwn r k1 hr (hfresh k1 v1 (by simp))
        rw [hget]
        have h2 : jsOrEmptyObj .undef = .obj [] := rfl
        have h3 : deepCopyM (.obj []) = .ok (.obj []) := rfl
        rw [h2, h3]
        dsimp only
        rw [IH v1 (hszs k1 v1 (by simp)) hwf.1]
      · rw [if_neg h1, if_neg h1]
    rw [hstep]
    rcases hcv : copyVal v1 with e | c
    · rfl
    · dsimp only
      exact ihf (setProp r k1 c) (isNonArrayObj_setProp _ _ _ hr) hwf.2 hnd.2
        (fun k v hkv => hszs k v (by simp [hkv]))
        (fun k v hkv => by
          rw [hasOwn_setProp' r k1 k _ hr]
          have h1 : ¬ k1 = k :=
            fun he => hnd.1 (he ▸ List.mem_map.mpr ⟨(k, v), hkv, rfl⟩)
          simp [h1, hfresh k v (by simp [hkv])])

theorem mergeElems_eq_copyElems_aux (N : Nat)
    (IH : ∀ v : JSValue, sizeOf v < N → wfJS v = true →
      mergeInto (.obj []) v = deepCopyM v) :
    ∀ (elems : List JSValue) (r : JSValue) (i : Nat),
      r.isNonArrayObj = true → wfElems elems = true →
      (∀ v, v ∈ elems → sizeOf v < N) →
      (∀ j, i ≤ j → r.jsHasOwn (idxStr j) = false) →
      mergeElems r i elems = copyElems r i elems := by
  intro elems
  induction elems with
  | nil => intro r i _ _ _ _; rfl
  | cons v1 rest ihe =>
    intro r i hr hwf hszs hfresh
    rw [wfElems, Bool.and_eq_true] at hwf
    rw [mergeElems_cons, copyElems_cons]
    have hstep : mergeStep r (idxStr i) v1 =
        match copyVal v1 with
        | .error e => .error e
        | .ok c => .ok (setProp r (idxStr i) c) := by
      rw [mergeStep, copyVal]
      by_cases h1 : v1.isNonArrayObj = true
      · rw [if_pos h1, if_pos h1]
        have hget : r.jsGetProp (idxStr i) = .undef :=
          getProp_undef_of_not_hasOwn r (idxStr i) hr (hfresh i (Nat.le_refl _))
        rw [hget]
        have h2 : jsOrEmptyObj .undef = .obj [] := rfl
        have h3 : deepCopyM (.obj []) = .ok (.obj []) := rfl
        rw [h2, h3]
        dsimp only
        rw [IH v1 (hszs v1 (by simp)) hwf.1]
      · rw [if_neg h1, if_neg h1]
    rw [hstep]
    rcases hcv : copyVal v1 with e | c
    · rfl
    · dsimp only
      exact ihe (setProp r (idxStr i) c) (i + 1)
        (isNonArrayObj_setProp _ _ _ hr) hwf.2
        (fun v hv => hszs v (by simp [hv]))
        (fun j hj => by
          rw [hasOwn_setProp' r (idxStr i) (idxStr j) _ hr]
          have hij : ¬ idxStr i = idxStr j := fun he => by
            have := idxStr_inj he
            omega
          simp [hij, hfresh j (by omega)])

theorem mergeInto_emptyObj_bound :
    ∀ (n : Nat) (z : JSValue), sizeOf z ≤ n → wfJS z = true →
      mergeInto (.obj []) z = deepCopyM z := by
  intro n
  induction n using Nat.strong_induction_on with
  | _ n ih =>
    intro z hsz hwf
    have IH : ∀ v : JSValue, sizeOf v < sizeOf z → wfJS v = true →
        mergeInto (.obj []) v = deepCopyM v := by
      intro v hlt hv
      exact ih (sizeOf v) (by omega) v (Nat.le_refl _) hv
    cases z with
    | obj fields =>
      rw [wfJS, Bool.and_eq_true] at hwf
      rw [mergeInto, deepCopyM]
      by_cases hhop : (lookupField fields "hasOwnProperty").isSome = true
      · rw [if_pos hhop, if_pos hhop]
      · rw [if_neg hhop, if_neg hhop]
        exact mergeFields_eq_copyFields_aux (sizeOf (JSValue.obj fields)) IH fields
          (.obj []) rfl hwf.2 hwf.1
          (fun k v hkv => sizeOf_mem_fields_lt hkv)
          (fun k v _ => rfl)
    | arr elems =>
      rw [wfJS] at hwf
      rw [mergeInto, deepCopyM]
      exact mergeElems_eq_copyElems_aux (sizeOf (JSValue.arr elems)) IH elems
        (.obj []) 0 rfl hwf
        (fun v hv => sizeOf_mem_elems_lt hv)
        (fun j _ => rfl)
    | undef => rfl
    | null => rfl
    | bool b => rfl
    | num m => rfl
    | str s => rfl

/-- `deepMerge({}, z)` (that is, `mergeInto` on an empty accumulator) and the
extracted structural copy agree on every value representable in
JavaScript. -/
theorem mergeInto_emptyObj (z : JSValue) (h : wfJS z = true) :
    mergeInto (.obj []) z = deepCopyM z :=
  mergeInto_emptyObj_bound (sizeOf z) z (Nat.le_refl _) h

end JSValue

/-! ## Claim C10 — empty document and permissive merge (corrected) -/

/-- Counterexample to claim C10 as stated: the claim asserts
`deepMerge(d) = d` for EVERY translation document.  A document owning the
legal JSON key `"hasOwnProperty"` shadows the method with a number, so the
guard call `obj.hasOwnProperty(key)` at objectHelpers.ts line 24 throws a
TypeError at the first key instead of copying the document. -/
theorem C10_counterexample_hasOwnProperty_throws :
    deepMerge [.obj [("hasOwnProperty", .num 1)]] = .error hasOwnErr ∧
    (Except.error hasOwnErr : Except String JSValue) ≠
      .ok (.obj [("hasOwnProperty", .num 1)]) :=
  ⟨rfl, by decide⟩

/-- Claim C10 as amended: for every translation document `d` — a non-null,
non-array object, with distinct keys at every level (as any actual
JavaScript object has) and owning neither a `"hasOwnProperty"` key (which
makes the merge throw, see the counterexample) nor a `"__proto__"` key
(which JavaScript would turn into prototype mutation rather than an own key)
— `deepMerge(d)` and `deepMerge(\x7b\x7d, d)` evaluate to a document
structurally equal to `d`, and `deepMerge()` with no arguments returns the
empty document. -/
theorem C10_deepMerge_empty_left_identity (d : JSValue) (hwf : wfJS d = true)
    (hsafe : safeKeys d = true) (hobj : d.isNonArrayObj = true) :
    deepMerge [] = .ok (.obj []) ∧ deepMerge [d] = .ok d ∧
    deepMerge [.obj [], d] = .ok d := by
  have hid : mergeInto (.obj []) d = .ok d := by
    rw [mergeInto_emptyObj d hwf, deepCopyM_id d hwf hsafe hobj]
  refine ⟨rfl, ?_, ?_⟩
  · show deepMergeFrom (.obj []) [d] = .ok d
    simp only [deepMergeFrom_cons, hid, deepMergeFrom_nil]
  · show deepMergeFrom (.obj []) [.obj [], d] = .ok d
    have h0 : mergeInto (.obj []) (.obj []) = .ok (.obj []) := rfl
    simp only [deepMergeFrom_cons, h0, hid, deepMergeFrom_nil]

/-- Witness for the amended C10 on a concrete nested document. -/
theorem C10_deepMerge_empty_left_identity_witness :
    deepMerge [.obj [("a", .num 1), ("b", .obj [("c", .str "x")])]] =
      .ok (.obj [("a", .num 1), ("b", .obj [("c", .str "x")])]) ∧
    deepMerge [.obj [], .obj [("a", .num 1), ("b", .obj [("c", .str "x")])]] =
      .ok (.obj [("a", .num 1), ("b", .obj [("c", .str "x")])]) := by
  have h := C10_deepMerge_empty_left_identity
    (.obj [("a", .num 1), ("b", .obj [("c", .str "x")])]) (by decide) (by decide) (by decide)
  exact ⟨h.2.1, h.2.2⟩

namespace JSValue

theorem lookupField_mem : ∀ {fields : List (String × JSValue)} {k : String} {v : JSValue},
    lookupField fields k = some v → (k, v) ∈ fields := by
  intro fields
  induction fields with
  | nil => intro k v h; simp [lookupField] at h
  | cons f rest ih =>
    obtain ⟨k1, v1⟩ := f
    intro k v h
    rw [lookupField] at h
    by_cases h1 : k1 = k
    · rw [if_pos h1] at h
      cases h
      subst h1
      simp
    · rw [if_neg h1] at h
      exact List.mem_cons.mpr (Or.inr (ih h))

end JSValue

/-! ## Claim C3 — permissive merge recursion condition (corrected) -/

namespace JSValue

end JSValue

namespace JSValue

theorem lookupField_isSome_of_mem :
    ∀ (fields : List (String × JSValue)) (k : String), k ∈ fields.map Prod.fst →
      (lookupField fields k).isSome = true := by
  intro fields
  induction fields with
  | nil => intro k h; simp at h
  | cons f rest ih =>
    obtain ⟨k1, v1⟩ := f
    intro k h
    rw [lookupField]
    by_cases h1 : k1 = k
    · rw [if_pos h1]; rfl
    · rw [if_neg h1]
      simp only [List.map_cons, List.mem_cons] at h
      rcases h with h | h
      · exact absurd h.symm h1
      · exact ih k h

theorem hasOwn_iff_mem_keys (t : JSValue) (k : String) (ht : t.isNonArrayObj = true) :
    t.jsHasOwn k = true ↔ k ∈ t.jsKeys := by
  cases t with
  | obj fields =>
    rw [jsHasOwn, jsKeys]
    constructor
    · intro h
      rw [Option.isSome_iff_exists] at h
      obtain ⟨v, hv⟩ := h
      exact List.mem_map.mpr ⟨(k, v), lookupField_mem hv, rfl⟩
    · exact lookupField_isSome_of_mem fields k
  | undef => simp [isNonArrayObj] at ht
  | null => simp [isNonArrayObj] at ht
  | bool b => simp [isNonArrayObj] at ht
  | num n => simp [isNonArrayObj] at ht
  | str s => simp [isNonArrayObj] at ht
  | arr elems => simp [isNonArrayObj] at ht

theorem keys_setProp_of_hasOwn (t : JSValue) (k : String) (v : JSValue)
    (ht : t.isNonArrayObj = true) (h : t.jsHasOwn k = true) :
    (setProp t k v).jsKeys = t.jsKeys := by
  cases t with
  | obj fields =>
    rw [jsHasOwn] at h
    rw [setProp, jsKeys, jsKeys]
    exact keys_setField_of_mem fields k v h
  | undef => simp [isNonArrayObj] at ht
  | null => simp [isNonArrayObj] at ht
  | bool b => simp [isNonArrayObj] at ht
  | num n => simp [isNonArrayObj] at ht
  | str s => simp [isNonArrayObj] at ht
  | arr elems => simp [isNonArrayObj] at ht

theorem strictMergeKey_eq (t s : JSValue) (k : String) :
    strictMergeKey t s k =
      if t.jsHasOwn k ∧ s.jsHasOwn k then
        if (t.jsGetProp k).isNonArrayObj ∧ (s.jsGetProp k).isNonArrayObj then
          match strictMergePair (t.jsGetProp k) (s.jsGetProp k) with
          | .error e => .error e
          | .ok m => .ok (setProp t k m)
        else .ok (setProp t k (s.jsGetProp k))
      else .ok t := by
  rw [strictMergeKey]
  simp only [dite_eq_ite]

theorem strictMergeKey_ok_shape {t s : JSValue} {k : String} {r : JSValue}
    (h : strictMergeKey t s k = .ok r) :
    r = t ∨ (t.jsHasOwn k = true ∧ ∃ w, r = setProp t k w) := by
  rw [strictMergeKey_eq] at h
  by_cases h1 : t.jsHasOwn k ∧ s.jsHasOwn k
  · rw [if_pos h1] at h
    by_cases h2 : (t.jsGetProp k).isNonArrayObj ∧ (s.jsGetProp k).isNonArrayObj
    · rw [if_pos h2] at h
      rcases hp : strictMergePair (t.jsGetProp k) (s.jsGetProp k) with e | m
      · rw [hp] at h
        exact Except.noConfusion h
      · rw [hp] at h
        simp only [Except.ok.injEq] at h
        exact Or.inr ⟨h1.1, m, h.symm⟩
    · rw [if_neg h2] at h
      simp only [Except.ok.injEq] at h
      exact Or.inr ⟨h1.1, s.jsGetProp k, h.symm⟩
  · rw [if_neg h1] at h
    simp only [Except.ok.injEq] at h
    exact Or.inl h.symm

theorem keys_strictMergeKey_ok {t s : JSValue} {k : String} {r : JSValue}
    (ht : t.isNonArrayObj = true) (h : strictMergeKey t s k = .ok r) :
    r.jsKeys = t.jsKeys ∧ r.isNonArrayObj = true := by
  rcases strictMergeKey_ok_shape h with hr | ⟨hk, w, hr⟩
  · subst hr
    exact ⟨rfl, ht⟩
  · subst hr
    exact ⟨keys_setProp_of_hasOwn t k w ht hk, isNonArrayObj_setProp _ _ _ ht⟩

theorem keys_strictMergeKeys_ok :
    ∀ (ks : List String) (t s r : JSValue), t.isNonArrayObj = true →
      strictMergeKeys t s ks = .ok r →
      r.jsKeys = t.jsKeys ∧ r.isNonArrayObj = true := by
  intro ks
  induction ks with
  | nil =>
    intro t s r ht h
    rw [strictMergeKeys] at h
    simp only [Except.ok.injEq] at h
    subst h
    exact ⟨rfl, ht⟩
  | cons k rest ih =>
    intro t s r ht h
    rw [strictMergeKeys] at h
    rcases hk : strictMergeKey t s k with e | t2
    · rw [hk] at h
      exact Except.noConfusion h
    · rw [hk] at h
      obtain ⟨hkeys, hobj⟩ := keys_strictMergeKey_ok ht hk
      obtain ⟨hkeys2, hobj2⟩ := ih t2 s r hobj h
      exact ⟨hkeys2.trans hkeys, hobj2⟩

theorem keys_strictMergeOne_ok {t s r : JSValue} (ht : t.isNonArrayObj = true)
    (h : strictMergeOne t s = .ok r) :
    r.jsKeys = t.jsKeys ∧ r.isNonArrayObj = true := by
  rw [strictMergeOne] at h
  by_cases hg : ¬ s.jsTruthy = true ∨ ¬ s.typeofObject = true
  · rw [if_pos hg] at h
    simp only [Except.ok.injEq] at h
    subst h
    exact ⟨rfl, ht⟩
  · rw [if_neg hg] at h
    by_cases hh1 : t.jsHasOwn "hasOwnProperty" = true
    · rw [if_pos hh1] at h
      exact Except.noConfusion h
    · rw [if_neg hh1] at h
      by_cases hh2 : s.jsHasOwn "hasOwnProperty" = true
      · rw [if_pos hh2] at h
        exact Except.noConfusion h
      · rw [if_neg hh2] at h
        exact keys_strictMergeKeys_ok t.jsKeys t s r ht h

theorem keys_strictMergePair_ok {tv sv m : JSValue} (ht : tv.isNonArrayObj = true)
    (h : strictMergePair tv sv = .ok m) : m.jsKeys = tv.jsKeys := by
  rw [strictMergePair] at h
  by_cases hg : ¬ tv.jsTruthy = true ∨ tv.jsKeys = []
  · rw [if_pos hg] at h
    simp only [Except.ok.injEq] at h
    subst h
    rfl
  · rw [if_neg hg] at h
    exact (keys_strictMergeOne_ok ht h).1

theorem keys_strictMergeAll_ok :
    ∀ (ss : List JSValue) (t r : JSValue), t.isNonArrayObj = true →
      strictMergeAll t ss = .ok r → r.jsKeys = t.jsKeys ∧ r.isNonArrayObj = true := by
  intro ss
  induction ss with
  | nil =>
    intro t r ht h
    rw [strictMergeAll_nil] at h
    simp only [Except.ok.injEq] at h
    subst h
    exact ⟨rfl, ht⟩
  | cons s rest ih =>
    intro t r ht h
    rw [strictMergeAll_cons] at h
    rcases h1 : strictMergeOne t s with e | t2
    · simp only [h1] at h
      exact Except.noConfusion h
    · simp only [h1] at h
      obtain ⟨hkeys, hobj⟩ := keys_strictMergeOne_ok ht h1
      obtain ⟨hkeys2, hobj2⟩ := ih t2 r hobj h
      exact ⟨hkeys2.trans hkeys, hobj2⟩

theorem keys_strictDeepMerge_ok {t : JSValue} {ss : List JSValue} {r : JSValue}
    (ht : t.isNonArrayObj = true) (h : strictDeepMerge t ss = .ok r) :
    r.jsKeys = t.jsKeys := by
  rw [strictDeepMerge] at h
  by_cases hg : ¬ t.jsTruthy = true ∨ t.jsKeys = []
  · rw [if_pos hg] at h
    simp only [Except.ok.injEq] at h
    subst h
    rfl
  · rw [if_neg hg] at h
    exact (keys_strictMergeAll_ok ss t r ht h).1

theorem strictDeepMerge_of_empty_target (ss : List JSValue) :
    strictDeepMerge (.obj []) ss = .ok (.obj []) := by
  have h : (¬ (JSValue.obj []).jsTruthy = true ∨ (JSValue.obj []).jsKeys = []) :=
    Or.inr rfl
  rw [strictDeepMerge, if_pos h]

end JSValue

namespace JSValue

theorem getProp_strictMergeKey_other_ok {t s r : JSValue} {k' k : String}
    (ht : t.isNonArrayObj = true) (hne : k' ≠ k)
    (h : strictMergeKey t s k' = .ok r) :
    r.jsGetProp k = t.jsGetProp k := by
  rcases strictMergeKey_ok_shape h with hr | ⟨-, w, hr⟩
  · subst hr
    rfl
  · subst hr
    exact getProp_setProp_other' t k' k w ht hne

theorem hasOwn_strictMergeKey_ok {t s r : JSValue} {k' k : String}
    (ht : t.isNonArrayObj = true) (h : strictMergeKey t s k' = .ok r) :
    r.jsHasOwn k = t.jsHasOwn k := by
  obtain ⟨hkeys, hobj⟩ := keys_strictMergeKey_ok ht h
  by_cases hc : t.jsHasOwn k = true
  · rw [hc]
    rw [hasOwn_iff_mem_keys _ k hobj, hkeys]
    exact (hasOwn_iff_mem_keys t k ht).mp hc
  · have h2 : t.jsHasOwn k = false := by
      cases hx : t.jsHasOwn k
      · rfl
      · exact absurd hx hc
    rw [h2]
    have hnot : ¬ k ∈ r.jsKeys := by
      rw [hkeys]
      intro hmem
      exact hc ((hasOwn_iff_mem_keys t k ht).mpr hmem)
    cases hx : r.jsHasOwn k
    · rfl
    · exact absurd ((hasOwn_iff_mem_keys _ k hobj).mp hx) hnot

theorem getProp_strictMergeKey_same_docs {t s r : JSValue} {k : String}
    (ht : t.isNonArrayObj = true)
    (h1 : t.jsHasOwn k = true) (h2 : s.jsHasOwn k = true)
    (hd : (t.jsGetProp k).isNonArrayObj = true ∧ (s.jsGetProp k).isNonArrayObj = true)
    (h : strictMergeKey t s k = .ok r) :
    ∃ m, strictMergePair (t.jsGetProp k) (s.jsGetProp k) = .ok m ∧
      r.jsGetProp k = m := by
  rw [strictMergeKey_eq, if_pos ⟨h1, h2⟩, if_pos hd] at h
  rcases hp : strictMergePair (t.jsGetProp k) (s.jsGetProp k) with e | m
  · rw [hp] at h
    exact Except.noConfusion h
  · rw [hp] at h
    simp only [Except.ok.injEq] at h
    subst h
    exact ⟨m, rfl, getProp_setProp_same' t k m ht⟩

theorem getProp_strictMergeKeys_not_mem_ok :
    ∀ (ks : List String) (t s r : JSValue) (k : String), t.isNonArrayObj = true →
      k ∉ ks → strictMergeKeys t s ks = .ok r →
      r.jsGetProp k = t.jsGetProp k := by
  intro ks
  induction ks with
  | nil =>
    intro t s r k _ _ h
    rw [strictMergeKeys] at h
    simp only [Except.ok.injEq] at h
    subst h
    rfl
  | cons k1 rest ih =>
    intro t s r k ht hmem h
    simp only [List.mem_cons, not_or] at hmem
    rw [strictMergeKeys] at h
    rcases hk1 : strictMergeKey t s k1 with e | t2
    · rw [hk1] at h
      exact Except.noConfusion h
    · rw [hk1] at h
      have hobj2 := (keys_strictMergeKey_ok ht hk1).2
      rw [ih t2 s r k hobj2 hmem.2 h]
      exact getProp_strictMergeKey_other_ok ht (fun he => hmem.1 he.symm) hk1

theorem getProp_strictMergeKeys_mem_docs :
    ∀ (ks : List String) (t s r : JSValue) (k : String), t.isNonArrayObj = true →
      keysNodup ks = true → k ∈ ks →
      t.jsHasOwn k = true → s.jsHasOwn k = true →
      (t.jsGetProp k).isNonArrayObj = true → (s.jsGetProp k).isNonArrayObj = true →
      strictMergeKeys t s ks = .ok r →
      ∃ m, strictMergePair (t.jsGetProp k) (s.jsGetProp k) = .ok m ∧
        r.jsGetProp k = m := by
  intro ks
  induction ks with
  | nil => intro t s r k _ _ hmem _ _ _ _ _; simp at hmem
  | cons k1 rest ih =>
    intro t s r k ht hnd hmem h1 h2 hd1 hd2 h
    rw [keysNodup_cons] at hnd
    rw [strictMergeKeys] at h
    rcases hk1 : strictMergeKey t s k1 with e | t2
    · rw [hk1] at h
      exact Except.noConfusion h
    · rw [hk1] at h
      have hobj2 := (keys_strictMergeKey_ok ht hk1).2
      by_cases heq : k1 = k
      · subst heq
        obtain ⟨m, hp, hr⟩ := getProp_strictMergeKey_same_docs ht h1 h2 ⟨hd1, hd2⟩ hk1
        have hrest := getProp_strictMergeKeys_not_mem_ok rest t2 s r k1 hobj2 hnd.1 h
        exact ⟨m, hp, hrest.trans hr⟩
      · rcases List.mem_cons.mp hmem with hx | hx
        · exact absurd hx.symm heq
        · have hget : t2.jsGetProp k = t.jsGetProp k :=
            getProp_strictMergeKey_other_ok ht heq hk1
          have hown : t2.jsHasOwn k = t.jsHasOwn k :=
            hasOwn_strictMergeKey_ok ht hk1
          obtain ⟨m, hp, hr⟩ := ih t2 s r k hobj2 hnd.2 hx
            (by rw [hown]; exact h1) h2 (by rw [hget]; exact hd1) hd2 h
          rw [hget] at hp
          exact ⟨m, hp, hr⟩

theorem jsTruthy_of_isNonArrayObj (t : JSValue) (h : t.isNonArrayObj = true) :
    t.jsTruthy = true := by
  cases t <;> simp_all [isNonArrayObj, jsTruthy]

theorem getProp_strictDeepMerge_single_docs {t s r : JSValue} {k : String}
    (ht : t.isNonArrayObj = true) (hnd : keysNodup t.jsKeys = true)
    (h1 : t.jsHasOwn k = true) (h2 : s.jsHasOwn k = true)
    (hd1 : (t.jsGetProp k).isNonArrayObj = true)
    (hd2 : (s.jsGetProp k).isNonArrayObj = true)
    (h : strictDeepMerge t [s] = .ok r) :
    ∃ m, strictMergePair (t.jsGetProp k) (s.jsGetProp k) = .ok m ∧
      r.jsGetProp k = m := by
  have hkmem : k ∈ t.jsKeys := (hasOwn_iff_mem_keys t k ht).mp h1
  have hguard : ¬ (¬ t.jsTruthy = true ∨ t.jsKeys = []) := by
    push_neg
    refine ⟨by simp [jsTruthy_of_isNonArrayObj t ht], ?_⟩
    intro he
    rw [he] at hkmem
    simp at hkmem
  rw [strictDeepMerge, if_neg hguard, strictMergeAll_cons] at h
  rcases ho : strictMergeOne t s with e | t2
  · simp only [ho] at h
    exact Except.noConfusion h
  · simp only [ho, strictMergeAll_nil, Except.ok.injEq] at h
    subst h
    rw [strictMergeOne] at ho
    have hsguard : ¬ (¬ s.jsTruthy = true ∨ ¬ s.typeofObject = true) := by
      push_neg
      cases s with
      | obj f => exact ⟨rfl, rfl⟩
      | arr es => exact ⟨rfl, rfl⟩
      | str s0 =>
        exfalso
        by_cases hk : k = "length"
        · simp [jsGetProp, hk, isNonArrayObj] at hd2
        · rcases hi : idxOf k (utf16Units s0.data).length with - | i
          · simp [jsGetProp, hk, hi, isNonArrayObj] at hd2
          · rcases he : (utf16Units s0.data)[i]? with - | c
            · simp [jsGetProp, hk, hi, List.get?_eq_getElem?, he, isNonArrayObj] at hd2
            · simp [jsGetProp, hk, hi, List.get?_eq_getElem?, he, isNonArrayObj] at hd2
      | num n => exact absurd h2 (by simp [jsHasOwn])
      | bool b => exact absurd h2 (by simp [jsHasOwn])
      | null => exact absurd h2 (by simp [jsHasOwn])
      | undef => exact absurd h2 (by simp [jsHasOwn])
    rw [if_neg hsguard] at ho
    by_cases hh1 : t.jsHasOwn "hasOwnProperty" = true
    · rw [if_pos hh1] at ho
      exact Except.noConfusion ho
    · rw [if_neg hh1] at ho
      by_cases hh2 : s.jsHasOwn "hasOwnProperty" = true
      · rw [if_pos hh2] at ho
        exact Except.noConfusion ho
      · rw [if_neg hh2] at ho
        exact getProp_strictMergeKeys_mem_docs t.jsKeys t s t2 k ht hnd hkmem
          h1 h2 hd1 hd2 ho

end JSValue

/-! ## Claim C5 — strict merge key-shape preservation (corrected) -/

/-- Counterexample to claim C5 as stated: the claim says `strictDeepMerge`
never adds a key at ANY nesting depth — the set of own keys of the target at
every level is unchanged.  That holds at the top level, but when the
overwrite branch fires (the two values at a key are not both non-array
documents), the source value replaces the target value WHOLESALE and may
carry new nested keys: `strictDeepMerge(\x7ba: 1\x7d,
\x7ba: \x7bz: 9\x7d\x7d)` turns the target's value at `a` (a primitive,
owning no keys) into a document owning the new key `z`. -/
theorem C5_counterexample_nested_key_added :
    strictDeepMerge (.obj [("a", .num 1)]) [.obj [("a", .obj [("z", .num 9)])]] =
      .ok (.obj [("a", .obj [("z", .num 9)])]) ∧
    ((JSValue.obj [("a", .obj [("z", .num 9)])]).jsGetProp "a").jsHasOwn "z" = true ∧
    ((JSValue.obj [("a", .num 1)]).jsGetProp "a").jsHasOwn "z" = false := by
  refine ⟨?_, by decide, by decide⟩
  simp [strictDeepMerge, strictMergeAll, strictMergeOne, strictMergeKeys, strictMergeKey,
    strictMergePair, jsKeys, jsTruthy, typeofObject, jsHasOwn, jsGetProp, lookupField,
    isNonArrayObj, setProp, setProp.setField]

/-- Claim C5 as amended: `strictDeepMerge` mutates and returns the target
(modelled by returning the updated target value).  A target with zero own
keys is returned unchanged immediately, whatever the sources (first
conjunct).  Whenever the call returns normally it never adds or removes a
TOP-LEVEL key of the target (second conjunct, which also covers keys present
only in a source being ignored at the level being merged); and at a key
where the recursion proceeds (both values non-array documents) the nested
target object's own-key set is likewise preserved (third conjunct).  Only
the overwrite branch can introduce new keys below the overwritten value (the
counterexample).  The call does NOT always return normally: a target or
(reached) source owning a `"hasOwnProperty"` key makes the guard calls of
line 83 throw a TypeError, as in the concrete fourth conjunct. -/
theorem C5_amended_key_shape :
    (∀ (ss : List JSValue), strictDeepMerge (.obj []) ss = .ok (.obj [])) ∧
    (∀ (t : JSValue) (ss : List JSValue) (r : JSValue),
      t.isNonArrayObj = true → strictDeepMerge t ss = .ok r →
      r.jsKeys = t.jsKeys) ∧
    (∀ (t s r : JSValue) (k : String),
      t.isNonArrayObj = true → keysNodup t.jsKeys = true →
      t.jsHasOwn k = true → s.jsHasOwn k = true →
      (t.jsGetProp k).isNonArrayObj = true → (s.jsGetProp k).isNonArrayObj = true →
      strictDeepMerge t [s] = .ok r →
      (r.jsGetProp k).jsKeys = (t.jsGetProp k).jsKeys) ∧
    strictDeepMerge (.obj [("a", .obj [("x", .num 1)]), ("hasOwnProperty", .num 5)])
      [.obj [("a", .obj [("x", .num 2)])]] = .error hasOwnErr := by
  refine ⟨strictDeepMerge_of_empty_target, ?_, ?_, ?_⟩
  · intro t ss r ht h
    exact keys_strictDeepMerge_ok ht h
  · intro t s r k ht hnd h1 h2 hd1 hd2 h
    obtain ⟨m, hp, hr⟩ := getProp_strictDeepMerge_single_docs ht hnd h1 h2 hd1 hd2 h
    rw [hr]
    exact keys_strictMergePair_ok hd1 hp
  · simp [strictDeepMerge, strictMergeAll, strictMergeOne, strictMergeKeys, strictMergeKey,
      strictMergePair, jsKeys, jsTruthy, typeofObject, jsHasOwn, jsGetProp, lookupField,
      isNonArrayObj, setProp, setProp.setField, hasOwnErr]

/-- Witness for the amended C5 on the specification's own example extended
with a nested level: the empty target is a no-op, the top-level key set is
preserved, and the nested key set is preserved where the recursion
proceeds. -/
theorem C5_amended_key_shape_witness :
    strictDeepMerge (.obj []) [.obj [("b", .num 1)]] = .ok (.obj []) ∧
    (JSValue.obj [("a", .num 1), ("b", .obj [("x", .num 3)])]).jsKeys = ["a", "b"] ∧
    ((JSValue.obj [("a", .num 1), ("b", .obj [("x", .num 3)])]).jsGetProp "b").jsKeys =
      ["x"] := by
  have h := C5_amended_key_shape
  have hrun : strictDeepMerge (.obj [("a", .num 1), ("b", .obj [("x", .num 2)])])
      [.obj [("b", .obj [("x", .num 3), ("y", .num 4)])]] =
      .ok (.obj [("a", .num 1), ("b", .obj [("x", .num 3)])]) := by
    simp [strictDeepMerge, strictMergeAll, strictMergeOne, strictMergeKeys, strictMergeKey,
      strictMergePair, jsKeys, jsTruthy, typeofObject, jsHasOwn, jsGetProp, lookupField,
      isNonArrayObj, setProp, setProp.setField]
  refine ⟨h.1 [.obj [("b", .num 1)]], ?_, ?_⟩
  · have h2 := h.2.1 (.obj [("a", .num 1), ("b", .obj [("x", .num 2)])])
      [.obj [("b", .obj [("x", .num 3), ("y", .num 4)])]]
      (.obj [("a", .num 1), ("b", .obj [("x", .num 3)])]) (by decide) hrun
    rw [h2]
    decide
  · have h3 := h.2.2.1 (.obj [("a", .num 1), ("b", .obj [("x", .num 2)])])
      (.obj [("b", .obj [("x", .num 3), ("y", .num 4)])])
      (.obj [("a", .num 1), ("b", .obj [("x", .num 3)])]) "b"
      (by decide) (by decide) (by decide) (by decide) (by decide) (by decide) hrun
    rw [h3]
    decide

/-! ## Claim C4 — key-path descent (corrected) -/

/-- Counterexample to claim C4 as stated: the claim says descent fails with
the NotFound fallback whenever the current value is not a document — "for
example a string, an array, a number, or null" — and that descent never
succeeds into a non-document value.  The loop only tests
`value?.hasOwnProperty(keyPart)`, and JavaScript arrays (and strings) own
their index keys and `length`, so descent succeeds into them: on the
document `\x7ba: ["x", "y"]\x7d` the lookup `ln("a.0")` returns `"x"`
instead of the fallback `"a.0"`. -/
theorem C4_counterexample_descends_into_array :
    ln (.obj [("a", .arr [.str "x", .str "y"])]) false "a.0" [] = .ok (.str "x") ∧
    JSValue.str "x" ≠ .str "a.0" :=
  ⟨rfl, by decide⟩

/-- Full characterisation of a failing descent: the caught throw occurs
EXACTLY WHEN, after some prefix of successful steps, the current value is
nullish, or owns a `"hasOwnProperty"` key (the guard call itself throws), or
lacks the next segment as an own property. -/
theorem descendSegs_none_iff :
    ∀ (segs : List String) (v : JSValue),
      descendSegs v segs = none ↔
        ∃ (i : Nat) (u : JSValue) (seg : String), segs[i]? = some seg ∧
          descendSegs v (segs.take i) = some u ∧
          (u.notNullish = false ∨ u.jsHasOwn "hasOwnProperty" = true ∨
           u.jsHasOwn seg = false) := by
  intro segs
  induction segs with
  | nil =>
    intro v
    constructor
    · intro h
      rw [descendSegs] at h
      exact Option.noConfusion h
    · rintro ⟨i, u, seg, hseg, -, -⟩
      simp at hseg
  | cons s rest ih =>
    intro v
    by_cases hg : v.notNullish = true ∧ ¬ v.jsHasOwn "hasOwnProperty" = true ∧
        v.jsHasOwn s = true
    · constructor
      · intro h
        rw [descendSegs, if_pos hg] at h
        obtain ⟨i, u, seg, h1, h2, h3⟩ := (ih (v.jsGetProp s)).mp h
        refine ⟨i + 1, u, seg, by simpa using h1, ?_, h3⟩
        rw [List.take_succ_cons, descendSegs, if_pos hg]
        exact h2
      · rintro ⟨i, u, seg, h1, h2, h3⟩
        cases i with
        | zero =>
          rw [List.take_zero, descendSegs] at h2
          simp only [Option.some.injEq] at h2
          subst h2
          simp only [List.getElem?_cons_zero, Option.some.injEq] at h1
          subst h1
          rcases h3 with h3 | h3 | h3
          · rw [hg.1] at h3
            exact Bool.noConfusion h3
          · exact absurd h3 hg.2.1
          · rw [hg.2.2] at h3
            exact Bool.noConfusion h3
        | succ i =>
          simp only [List.getElem?_cons_succ] at h1
          rw [List.take_succ_cons, descendSegs, if_pos hg] at h2
          rw [descendSegs, if_pos hg]
          exact (ih (v.jsGetProp s)).mpr ⟨i, u, seg, h1, h2, h3⟩
    · constructor
      · intro _
        refine ⟨0, v, s, by simp, by rw [List.take_zero, descendSegs], ?_⟩
        by_cases hA : v.notNullish = true
        · by_cases hB : v.jsHasOwn "hasOwnProperty" = true
          · exact Or.inr (Or.inl hB)
          · have hC : v.jsHasOwn s = false := by
              cases hc : v.jsHasOwn s
              · rfl
              · exact absurd ⟨hA, hB, hc⟩ hg
            exact Or.inr (Or.inr hC)
        · refine Or.inl ?_
          cases hc : v.notNullish
          · rfl
          · exact absurd hc hA
      · intro _
        rw [descendSegs, if_neg hg]

/-- Claim C4 as amended: after the first segment is located, descent fails —
and `ln` then returns the NotFound fallback — EXACTLY WHEN, at some later
step, the current value is nullish, or owns a `"hasOwnProperty"` key (the
guard call `value?.hasOwnProperty(keyPart)` then itself throws a TypeError,
which the surrounding `try` converts into the same fallback), or lacks the
next segment as an own property (first conjunct, both directions).  Numbers,
booleans, `null` and `undefined` own no properties, so descent through them
always fails (second conjunct); but strings and arrays own their index keys
and `length`, so descent CAN succeed into them (the counterexample) — the
not-a-document test claimed by the specification is never performed.  The
final conjunct is the `ln`-level statement for a call without trailing
arguments on a document whose own `"hasOwnProperty"` is not shadowed: when
descent past the first segment fails, the call returns the original key
path, re-formatted with the call's (empty) arguments. -/
theorem C4_amended_descent_own_property :
    (∀ (v : JSValue) (segs : List String),
      descendSegs v segs = none ↔
        ∃ (i : Nat) (u : JSValue) (seg : String), segs[i]? = some seg ∧
          descendSegs v (segs.take i) = some u ∧
          (u.notNullish = false ∨ u.jsHasOwn "hasOwnProperty" = true ∨
           u.jsHasOwn seg = false)) ∧
    ((∀ (n : Int) (seg : String), (JSValue.num n).jsHasOwn seg = false) ∧
     (∀ (b : Bool) (seg : String), (JSValue.bool b).jsHasOwn seg = false) ∧
     (∀ seg, JSValue.null.jsHasOwn seg = false) ∧
     (∀ seg, JSValue.undef.jsHasOwn seg = false)) ∧
    (∀ (data : JSValue) (key k1 : String) (rest : List String),
      jsSplitDot key = k1 :: rest → jsTrim k1 ≠ "" →
      data.jsHasOwn "hasOwnProperty" = false →
      data.notNullish = true → data.jsHasOwn (jsTrim k1) = true →
      descendSegs (data.jsGetProp (jsTrim k1)) rest = none →
      ln data false key [] = .ok (.str (jsFormat key []))) := by
  refine ⟨fun v segs => descendSegs_none_iff segs v,
    ⟨fun n seg => rfl, fun b seg => rfl, fun seg => rfl, fun seg => rfl⟩, ?_⟩
  intro data key k1 rest hsplit htrim hshadow hdata hown hfail
  have hco : checkOverride [] = .absent := rfl
  rw [ln, hco]
  rw [if_neg (by simp)]
  unfold lnMain
  rw [hsplit]
  simp only [List.headD_cons, List.tail_cons]
  rw [if_neg htrim, if_neg (by simp [hshadow]), if_neg (by simp [hdata, hown]), hfail]
  have hfb : notFoundFallback (.str "") key [] = .str key := by
    unfold notFoundFallback
    rw [if_neg (by simp [jsTruthy])]
  rw [hfb]

/-- Witness for the amended C4: descent through a number fails (both via the
characterisation and concretely) and the call falls back to the literal key
path. -/
theorem C4_amended_descent_own_property_witness :
    descendSegs (.num 5) ["b"] = none ∧
    ln (.obj [("a", .num 5)]) false "a.b" [] = .ok (.str "a.b") := by
  have h := C4_amended_descent_own_property
  constructor
  · exact (h.1 (.num 5) ["b"]).mpr ⟨0, .num 5, "b", rfl, rfl, Or.inr (Or.inr rfl)⟩
  · have h3 := h.2.2 (.obj [("a", .num 5)]) "a.b" "a" ["b"]
      (by decide) (by decide) (by decide) (by decide) (by decide) (by decide)
    have he : jsFormat "a.b" [] = "a.b" := by decide
    rw [he] at h3
    exact h3

/-! ## Claim C9 — loading-state suppression (corrected) -/

/-- Counterexample to claim C9 as stated: part two of the claim quantifies
over every argument list with no `defaultTxt` override, but when the
trailing argument is `null` there is no override and yet `ln` raises a
`TypeError` (see C1) instead of returning the empty string, even with no
document and the loading flag set. -/
theorem C9_counterexample_null_breaks_suppression :
    ln .undef true "k" [.null] = .error "TypeError: null.hasOwnProperty" ∧
    (Except.error "TypeError: null.hasOwnProperty" :
      Except String JSValue) ≠ .ok (.str "") :=
  ⟨rfl, by decide⟩

/-- Claim C9 as amended: (first conjunct) if the trailing argument bag is an
object carrying a `defaultTxt` own property — and, as for every
`hasOwnProperty` call in the engine, not shadowing the method itself with an
own `"hasOwnProperty"` key — and the engine has no truthy document or is
still loading, `ln` returns the empty string immediately; (second conjunct)
with no override — no trailing argument, or a trailing argument that is not
object-typed, or an object owning neither `defaultTxt` nor `"hasOwnProperty"`
— `ln` returns the empty string whenever there is no document and loading is
in progress.  (A `null` trailing argument instead raises a TypeError — the
defect recorded at C1 — and a trailing object owning a `"hasOwnProperty"`
key raises one through the shadowed guard call.) -/
theorem C9_amended_loading_suppression (data : JSValue) (loading : Bool)
    (key : String) (initArgs args : List JSValue)
    (fields : List (String × JSValue)) :
    (((JSValue.obj fields).jsHasOwn "defaultTxt" = true) →
      ((JSValue.obj fields).jsHasOwn "hasOwnProperty" = false) →
      (¬ data.jsTruthy = true ∨ loading = true) →
      ln data loading key (initArgs ++ [.obj fields]) = .ok (.str "")) ∧
    (¬ data.jsTruthy = true → loading = true →
      (∀ last, args.getLast? = some last →
        last ≠ .null ∧ (last.typeofObject = true →
          last.jsHasOwn "hasOwnProperty" = false ∧
          last.jsHasOwn "defaultTxt" = false)) →
      ln data loading key args = .ok (.str "")) := by
  constructor
  · intro hown hshadow hload
    have hlast : (initArgs ++ [JSValue.obj fields]).getLast? = some (.obj fields) := by
      simp
    have hco : checkOverride (initArgs ++ [.obj fields]) =
        .present ((JSValue.obj fields).jsGetProp "defaultTxt") := by
      rw [checkOverride, hlast]
      dsimp only
      rw [if_pos (show (JSValue.obj fields).typeofObject = true from rfl)]
      rw [if_neg (show ¬ (JSValue.obj fields) = .null by simp),
        if_neg (by simp [hshadow]), if_pos hown]
    rw [ln, hco]
    dsimp only
    rw [if_pos hload]
  · intro hdata hload hsafe
    have hco : checkOverride args = .absent := by
      rw [checkOverride]
      cases hlast : args.getLast? with
      | none => rfl
      | some last =>
        obtain ⟨hnull, hobj⟩ := hsafe last hlast
        dsimp only
        by_cases hty : last.typeofObject = true
        · rw [if_pos hty, if_neg hnull, if_neg (by simp [(hobj hty).1]),
            if_neg (by simp [(hobj hty).2])]
        · rw [if_neg hty]
    rw [ln, hco]
    dsimp only
    rw [if_pos ⟨hdata, hload⟩]

/-- Witness for the amended C9: an override bag suppresses output while
loading, and a plain lookup with no arguments on an engine with no document
and the loading flag set returns the empty string. -/
theorem C9_amended_loading_suppression_witness :
    ln .undef true "missing.key" [.obj [("defaultTxt", .str "Fallback")]] =
      .ok (.str "") ∧
    ln .undef true "anything" [] = .ok (.str "") := by
  have h := C9_amended_loading_suppression .undef true "missing.key" []
    [] [("defaultTxt", .str "Fallback")]
  have h2 := C9_amended_loading_suppression .undef true "anything" [] [] []
  refine ⟨?_, ?_⟩
  · have := h.1 (by decide) (by decide) (Or.inr rfl)
    simpa using this
  · exact h2.2 (by decide) rfl (by intro last hl; simp at hl)
